import Mathlib

/-!
Shallow embedding of the fairdrop-linera Dutch-auction contract
(src/auction/src/contract.rs, src/auction/src/state.rs, shared types and
src/smart-contract/shared/src/utils.rs) together with proofs about the
frozen specification claims.

Modelling conventions:
* `Amount` (linera u128 atto-units) is a `Nat` together with explicit
  saturation at `AMOUNT_MAX = 2^128 - 1` wherever the Rust code uses
  `saturating_add` / `saturating_sub` / `saturating_mul`.
* `Timestamp` (u64 microseconds) is a `Nat`; `Timestamp::delta_since` is
  saturating subtraction, which is ordinary `Nat` subtraction.
* `AccountOwner`, `ApplicationId` and `ChainId` are opaque identifiers,
  modelled as `Nat`.
* `MapView` state is modelled as an association list with
  replace-or-append insertion; panics (`expect`, `unwrap`, `assert!`,
  `assert_eq!`) abort the whole operation and are modelled by `Option`
  (`none` = abort, nothing committed).
* The fungible-token collaborator is external to the auction contract
  (spec section 6: a transfer either fully completes or fails
  synchronously); the outcome of the payment-collection call is passed in
  as an explicit `Option String` (`some reason` = the call failed).
-/

/-- Maximal representable `Amount` / u128 value. -/
def AMOUNT_MAX : Nat := 2 ^ 128 - 1

namespace Amount

/-- Rust `Amount::saturating_add`. -/
def satAdd (a b : Nat) : Nat := min (a + b) AMOUNT_MAX

/-- Rust `Amount::saturating_sub` (saturates at zero, which is exactly
`Nat` subtraction). -/
def satSub (a b : Nat) : Nat := a - b

/-- Rust `Amount::saturating_mul` (multiplication of the raw u128 value by
a u128 scalar, saturating at `u128::MAX`). -/
def satMul (a b : Nat) : Nat := min (a * b) AMOUNT_MAX

theorem satAdd_mono {a b c d : Nat} (h1 : a ≤ c) (h2 : b ≤ d) :
    satAdd a b ≤ satAdd c d := by
  unfold satAdd
  exact min_le_min (Nat.add_le_add h1 h2) le_rfl

theorem le_satAdd_left {a : Nat} (b : Nat) (h : a ≤ AMOUNT_MAX) :
    a ≤ satAdd a b := by
  unfold satAdd
  exact le_min (Nat.le_add_right a b) h

theorem satAdd_eq_add {a b : Nat} (h : a + b ≤ AMOUNT_MAX) :
    satAdd a b = a + b := by
  unfold satAdd
  exact min_eq_left h

theorem satAdd_le {a b c : Nat} (h : a + b ≤ c) : satAdd a b ≤ c :=
  le_trans (min_le_left _ _) h

theorem satMul_le_mul (a b : Nat) : satMul a b ≤ a * b :=
  min_le_left _ _

theorem satMul_le_max (a b : Nat) : satMul a b ≤ AMOUNT_MAX :=
  min_le_right _ _

theorem satMul_mono_right {a b c : Nat} (h : b ≤ c) :
    satMul a b ≤ satMul a c :=
  min_le_min (Nat.mul_le_mul_left a h) le_rfl

/-- Distributing a saturating multiplication over a saturating addition
can only lose against performing the additions afterwards. -/
theorem satMul_satAdd_le (c a b : Nat) :
    satMul c (satAdd a b) ≤ satAdd (satMul c a) (satMul c b) := by
  unfold satMul satAdd
  rcases Nat.le_total (c * a + c * b) AMOUNT_MAX with h | h
  · have ha : c * a ≤ AMOUNT_MAX := le_trans (Nat.le_add_right _ _) h
    have hb : c * b ≤ AMOUNT_MAX := le_trans (Nat.le_add_left _ _) h
    rw [min_eq_left ha, min_eq_left hb]
    have hmul : c * min (a + b) AMOUNT_MAX ≤ c * a + c * b := by
      calc c * min (a + b) AMOUNT_MAX ≤ c * (a + b) :=
            Nat.mul_le_mul_left c (min_le_left _ _)
        _ = c * a + c * b := Nat.mul_add c a b
    exact min_le_min hmul le_rfl
  · calc min (c * min (a + b) AMOUNT_MAX) AMOUNT_MAX ≤ AMOUNT_MAX :=
        min_le_right _ _
      _ ≤ min (min (c * a) AMOUNT_MAX + min (c * b) AMOUNT_MAX) AMOUNT_MAX := by
        refine le_min ?_ le_rfl
        rcases Nat.le_total (c * a) AMOUNT_MAX with h1 | h1
        · rw [min_eq_left h1]
          rcases Nat.le_total (c * b) AMOUNT_MAX with h2 | h2
          · rw [min_eq_left h2]; exact h
          · rw [min_eq_right h2]; exact Nat.le_add_left _ _
        · rw [min_eq_right h1]; exact Nat.le_add_right _ _

end Amount

/-! ## Association-list model of `MapView` -/

/-- Lookup in an association list (models `MapView::get`). -/
def alGet {α β : Type} [DecidableEq α] (l : List (α × β)) (k : α) : Option β :=
  (l.find? (fun p => p.1 == k)).map (fun p => p.2)

/-- Replace-first-or-append insertion (models `MapView::insert`). -/
def alInsert {α β : Type} [DecidableEq α] : List (α × β) → α → β → List (α × β)
  | [], k, v => [(k, v)]
  | p :: rest, k, v => if p.1 = k then (k, v) :: rest else p :: alInsert rest k v

/-- Removal of every binding of a key (models `MapView::remove`). -/
def alRemove {α β : Type} [DecidableEq α] : List (α × β) → α → List (α × β)
  | [], _ => []
  | p :: rest, k => if p.1 = k then alRemove rest k else p :: alRemove rest k

theorem alGet_alInsert_self {α β : Type} [DecidableEq α]
    (l : List (α × β)) (k : α) (v : β) : alGet (alInsert l k v) k = some v := by
  induction l with
  | nil => simp [alGet, alInsert]
  | cons p rest ih =>
    by_cases h : p.1 = k
    · simp [alGet, alInsert, h]
    · simpa [alGet, alInsert, h] using ih

theorem alGet_alInsert_ne {α β : Type} [DecidableEq α]
    (l : List (α × β)) (k k2 : α) (v : β) (h : k2 ≠ k) :
    alGet (alInsert l k v) k2 = alGet l k2 := by
  induction l with
  | nil => simp [alGet, alInsert, Ne.symm h]
  | cons p rest ih =>
    by_cases hp : p.1 = k
    · subst hp
      simp [alGet, alInsert, Ne.symm h]
    · by_cases hp2 : p.1 = k2
      · simp [alGet, alInsert, hp, hp2, h]
      · simpa [alGet, alInsert, hp, hp2, h] using ih

theorem alGet_alRemove_self {α β : Type} [DecidableEq α]
    (l : List (α × β)) (k : α) : alGet (alRemove l k) k = none := by
  induction l with
  | nil => simp [alGet, alRemove]
  | cons p rest ih =>
    by_cases h : p.1 = k
    · simpa [alRemove, h] using ih
    · simpa [alGet, alRemove, h] using ih

theorem alGet_alRemove_ne {α β : Type} [DecidableEq α]
    (l : List (α × β)) (k k2 : α) (h : k2 ≠ k) :
    alGet (alRemove l k) k2 = alGet l k2 := by
  induction l with
  | nil => simp [alRemove]
  | cons p rest ih =>
    by_cases hp : p.1 = k
    · subst hp
      simpa [alGet, alRemove, Ne.symm h] using ih
    · by_cases hp2 : p.1 = k2
      · simp [alGet, alRemove, hp, hp2, h]
      · simpa [alGet, alRemove, hp, hp2, h] using ih

theorem mem_of_alGet {α β : Type} [DecidableEq α]
    {l : List (α × β)} {k : α} {v : β} (h : alGet l k = some v) : (k, v) ∈ l := by
  induction l with
  | nil => simp [alGet] at h
  | cons p rest ih =>
    by_cases hp : p.1 = k
    · simp [alGet, hp] at h
      have hpv : p = (k, v) := by
        cases p
        simp at hp h ⊢
        exact ⟨hp, h⟩
      rw [← hpv]
      exact List.mem_cons_self _ _
    · simp [alGet, hp] at h
      exact List.mem_cons_of_mem _ (ih (by simpa [alGet] using h))

theorem mem_alInsert {α β : Type} [DecidableEq α]
    {l : List (α × β)} {k : α} {v : β} {p : α × β}
    (h : p ∈ alInsert l k v) : p = (k, v) ∨ p ∈ l := by
  induction l with
  | nil => simpa [alInsert] using h
  | cons q rest ih =>
    by_cases hq : q.1 = k
    · simp [alInsert, hq] at h
      rcases h with h | h
      · exact Or.inl h
      · exact Or.inr (List.mem_cons_of_mem _ h)
    · simp [alInsert, hq] at h
      rcases h with h | h
      · exact Or.inr (by simp [h])
      · rcases ih h with h2 | h2
        · exact Or.inl h2
        · exact Or.inr (List.mem_cons_of_mem _ h2)

theorem alGet_eq_none_of_not_mem {α β : Type} [DecidableEq α]
    {l : List (α × β)} {k : α} (h : k ∉ l.map Prod.fst) : alGet l k = none := by
  induction l with
  | nil => rfl
  | cons p rest ih =>
    have hp : p.1 ≠ k := by
      intro hc
      exact h (by simp [← hc])
    have hr : k ∉ rest.map Prod.fst := by
      intro hc
      exact h (by simp [hc])
    simpa [alGet, hp] using ih hr

/-! ## Shared price-decay utility

`calculate_current_price` from src/smart-contract/shared/src/utils.rs.
The u64 division `elapsed_micros / price_decay_interval` panics in Rust
when the interval is zero; the panic is modelled as `none`. -/

def calculate_current_price (start_price floor_price price_decay_amount
    price_decay_interval start_time current_time : Nat) : Option Nat :=
  if current_time < start_time then
    some start_price
  else if price_decay_interval = 0 then
    none
  else
    let elapsed_micros := current_time - start_time
    let intervals_passed := elapsed_micros / price_decay_interval
    let total_decay := Amount.satMul price_decay_amount intervals_passed
    some (max (Amount.satSub start_price total_decay) floor_price)

theorem calculate_current_price_isSome (sp fp da di st now : Nat)
    (hdi : 0 < di) :
    ∃ p, calculate_current_price sp fp da di st now = some p := by
  have hdi0 : ¬ di = 0 := by omega
  unfold calculate_current_price
  by_cases h : now < st
  · exact ⟨sp, by simp [h]⟩
  · refine ⟨max (Amount.satSub sp
      (Amount.satMul da ((now - st) / di))) fp, ?_⟩
    simp [h, hdi0]

/-- C4: with a positive decay interval (the function's domain; the Rust
division panics at zero), the price function returns `start_price` before
`start_time` and otherwise the floor-clamped saturating decay formula
with integer floor division. -/
theorem C4_price_formula (sp fp da di st now : Nat) (hdi : 0 < di) :
    calculate_current_price sp fp da di st now =
      (if now < st then some sp
       else some (max (sp - min (da * ((now - st) / di)) AMOUNT_MAX) fp)) := by
  have hdi0 : ¬ di = 0 := by omega
  by_cases h : now < st
  · simp [calculate_current_price, h]
  · simp [calculate_current_price, Amount.satMul, Amount.satSub, h, hdi0]

theorem C4_price_formula_witness :
    (0 < 60) ∧
    calculate_current_price 100 10 1 60 1000 2000 =
      (if 2000 < 1000 then some 100
       else some (max (100 - min (1 * ((2000 - 1000) / 60)) AMOUNT_MAX) 10)) :=
  ⟨by decide, C4_price_formula 100 10 1 60 1000 2000 (by decide)⟩

/-- C9 (counterexample): with `start_price < floor_price` the price
before `start_time` is `start_price`, below the floor, and the price
jumps UP to `floor_price` at `start_time`; so the function is not
non-increasing, not floor-bounded, and not equal to `start_price` at
`now = start_time`. -/
theorem C9_counterexample :
    calculate_current_price 5 10 1 60 100 50 = some 5 ∧
    calculate_current_price 5 10 1 60 100 100 = some 10 ∧
    (50 : Nat) ≤ 100 ∧ ¬ (10 : Nat) ≤ 5 ∧ (5 : Nat) < 10 ∧ (10 : Nat) ≠ 5 := by
  refine ⟨?_, ?_, by decide, by decide, by decide, by decide⟩
  · decide
  · decide

/-- C9 (amended): when additionally `floor_price ≤ start_price` (and the
decay interval is positive), the price function is monotonically
non-increasing in `now`, never returns a value below `floor_price`, and
returns exactly `start_price` for every `now ≤ start_time`. -/
theorem C9_price_monotone (sp fp da di st : Nat) (hdi : 0 < di)
    (hfp : fp ≤ sp) :
    (∀ t1 t2 p1 p2, t1 ≤ t2 →
      calculate_current_price sp fp da di st t1 = some p1 →
      calculate_current_price sp fp da di st t2 = some p2 → p2 ≤ p1) ∧
    (∀ t p, calculate_current_price sp fp da di st t = some p → fp ≤ p) ∧
    (∀ t, t ≤ st → calculate_current_price sp fp da di st t = some sp) := by
  have hdi0 : ¬ di = 0 := by omega
  refine ⟨?_, ?_, ?_⟩
  · intro t1 t2 p1 p2 hle h1 h2
    unfold calculate_current_price at h1 h2
    by_cases ha : t1 < st
    · simp [ha] at h1
      subst h1
      by_cases hb : t2 < st
      · simp [hb] at h2
        omega
      · simp [hb, hdi0] at h2
        subst h2
        exact max_le (Nat.sub_le _ _) hfp
    · have hb : ¬ t2 < st := by omega
      simp [ha, hdi0] at h1
      simp [hb, hdi0] at h2
      subst h1
      subst h2
      have hdiv : (t1 - st) / di ≤ (t2 - st) / di :=
        Nat.div_le_div_right (Nat.sub_le_sub_right hle st)
      have hdecay : Amount.satMul da ((t1 - st) / di) ≤
          Amount.satMul da ((t2 - st) / di) :=
        Amount.satMul_mono_right hdiv
      exact max_le_max (Nat.sub_le_sub_left hdecay sp) le_rfl
  · intro t p h
    unfold calculate_current_price at h
    by_cases ha : t < st
    · simp [ha] at h
      omega
    · simp [ha, hdi0] at h
      subst h
      exact le_max_right _ _
  · intro t ht
    unfold calculate_current_price
    by_cases ha : t < st
    · simp [ha]
    · have ht2 : t = st := by omega
      subst ht2
      simp [hdi0, Amount.satMul, Amount.satSub, Nat.max_eq_left hfp]

theorem C9_price_monotone_witness :
    (0 < 60) ∧ (10 ≤ 100) ∧
    calculate_current_price 100 10 1 60 1000 500 = some 100 :=
  ⟨by decide, by decide,
    (C9_price_monotone 100 10 1 60 1000 (by decide) (by decide)).2.2 500 (by decide)⟩

/-! ## Data model (shared/src/types.rs and auction/src/state.rs) -/

inductive AuctionStatus where
  | Scheduled
  | Active
  | Settled
  | Pruned
  | Cancelled
deriving DecidableEq

structure AuctionParams where
  item_name : String
  image : String
  total_supply : Nat
  max_bid_amount : Nat
  start_price : Nat
  floor_price : Nat
  price_decay_interval : Nat
  price_decay_amount : Nat
  start_time : Nat
  end_time : Nat
  creator : Nat
  payment_token_app : Nat
  auction_token_app : Nat
deriving DecidableEq

structure BidRecord where
  bid_id : Nat
  auction_id : Nat
  user_account : Nat
  quantity : Nat
  amount_paid : Nat
  timestamp : Nat
  claimed : Bool
deriving DecidableEq

structure AuctionData where
  params : AuctionParams
  current_price : Nat
  last_price_update : Nat
  total_supply : Nat
  sold : Nat
  clearing_price : Option Nat
  status : AuctionStatus
  settled_at : Option Nat
  bids_pruned : Bool
  total_bids : Nat
  total_bidders : Nat
deriving DecidableEq

/-- AuctionData::new (auction/src/state.rs). -/
def AuctionData.new (params : AuctionParams) (current_time : Nat) : AuctionData :=
  let status := if current_time < params.start_time then
      AuctionStatus.Scheduled
    else
      AuctionStatus.Active
  { params := params
    current_price := params.start_price
    last_price_update := params.start_time
    total_supply := params.total_supply
    sold := 0
    clearing_price := none
    status := status
    settled_at := none
    bids_pruned := false
    total_bids := 0
    total_bidders := 0 }

/-- Root view AuctionState (auction/src/state.rs); each MapView is an
association list. -/
structure AuctionState where
  auctions : List (Nat × AuctionData)
  user_auction_bids : List ((Nat × Nat) × List BidRecord)
  user_totals : List ((Nat × Nat) × Nat)
  next_auction_id : Nat
  next_bid_id : Nat
deriving DecidableEq

def initial_state : AuctionState :=
  { auctions := []
    user_auction_bids := []
    user_totals := []
    next_auction_id := 0
    next_bid_id := 0 }

structure Account where
  chain_id : Nat
  owner : Nat
deriving DecidableEq

/-- Stand-in for Rust's Debug rendering of a Timestamp inside the
format! strings; the exact rendering is immaterial to every claim. -/
def timestampDebug (t : Nat) : String :=
  "Timestamp(" ++ toString t ++ ")"

inductive AuctionEvent where
  | ApplicationInitialized (aac_chain : Nat)
  | AuctionCreated (auction_id : Nat) (params : AuctionParams) (creator : Nat)
  | AuctionCancelled (auction_id : Nat) (reason : String)
  | BidRejected (auction_id : Nat) (user_account : Nat) (reason : String)
  | BidAccepted (auction_id bid_id user_account quantity amount_paid
      total_sold remaining : Nat)
  | PaymentReceived (auction_id user_account amount bid_id : Nat)
  | AuctionSettled (auction_id clearing_price total_bidders total_sold : Nat)
  | SettlementClaimed (auction_id user_account allocated_quantity
      clearing_price total_cost refund : Nat)
  | RefundIssued (auction_id user_account refund_amount : Nat)
deriving DecidableEq

/-- External synchronous call into a fungible-token application
(FungibleOperation::Transfer). -/
inductive ExtCall where
  | Transfer (token_app : Nat) (owner : Nat) (amount : Nat)
      (target_account : Account)
deriving DecidableEq

inductive AuctionResponse where
  | Ok
  | AuctionCreated (auction_id : Nat)
  | BidPlaced (auction_id bid_id user_account quantity amount_paid
      timestamp : Nat) (claimed : Bool)
deriving DecidableEq

structure BidValidation where
  bidder : Nat
  accepted_quantity : Nat
  amount_paid : Nat
  current_price : Nat
  payment_token_app : Nat
  should_settle : Bool
deriving DecidableEq

structure ClaimData where
  unclaimed_bids : List BidRecord
  clearing_price : Nat
  payment_token_app : Nat
  auction_token_app : Nat
deriving DecidableEq

structure Settlement where
  total_quantity : Nat
  total_cost : Nat
  refund : Nat
deriving DecidableEq

/-! ## Contract handlers (auction/src/contract.rs)

Every handler returns its successor state together with the events it
emitted and the external token-transfer calls it issued, wrapped in
`Option`: `none` models a panic (`expect` / `unwrap` / `assert!`), which
aborts the whole operation with nothing committed. -/

/-- AuctionContract::handle_create_auction. -/
def handle_create_auction (st : AuctionState) (caller now : Nat)
    (params : AuctionParams) :
    AuctionState × List AuctionEvent × AuctionResponse :=
  let auction_id := st.next_auction_id
  let auction := AuctionData.new params now
  let st2 := { st with
    next_auction_id := auction_id + 1
    auctions := alInsert st.auctions auction_id auction }
  (st2, [AuctionEvent.AuctionCreated auction_id params caller],
    AuctionResponse.AuctionCreated auction_id)

/-- AuctionContract::handle_cancel_auction. -/
def handle_cancel_auction (st : AuctionState) (caller auction_id : Nat) :
    Option (AuctionState × List AuctionEvent × AuctionResponse) :=
  match alGet st.auctions auction_id with
  | none => none
  | some auction =>
    if caller ≠ auction.params.creator then none
    else if auction.status ≠ AuctionStatus.Scheduled then none
    else
      let auction_mut := { auction with status := AuctionStatus.Cancelled }
      let st2 := { st with
        auctions := alInsert st.auctions auction_id auction_mut }
      let reason := "Cancelled by creator before start_time (" ++
        timestampDebug auction.params.start_time ++ ")"
      some (st2, [AuctionEvent.AuctionCancelled auction_id reason],
        AuctionResponse.Ok)

def one_hour_micros : Nat := 60 * 60 * 1000000

def ninety_days_micros : Nat := 90 * 24 * 60 * 60 * 1000000

/-- One iteration of the pruning loop over the user-auction keys. -/
def pruneStep (prune_all : Bool) (auction_id : Nat)
    (m : List ((Nat × Nat) × List BidRecord)) (key : Nat × Nat) :
    List ((Nat × Nat) × List BidRecord) :=
  if key.2 = auction_id then
    if prune_all then
      alRemove m key
    else
      let user_bids := (alGet m key).getD []
      let filtered_bids := user_bids.filter (fun bid => !bid.claimed)
      if filtered_bids.isEmpty then
        alRemove m key
      else
        alInsert m key filtered_bids
  else m

/-- AuctionContract::handle_prune_settled_auction (two-tier strategy). -/
def handle_prune_settled_auction (st : AuctionState) (now auction_id : Nat) :
    Option (AuctionState × List AuctionEvent × AuctionResponse) :=
  match alGet st.auctions auction_id with
  | none => none
  | some auction =>
    if auction.status ≠ AuctionStatus.Settled then none
    else
      match auction.settled_at with
      | none => none
      | some settled_at =>
        let elapsed := now - settled_at
        if elapsed < one_hour_micros then none
        else
          let prune_all : Bool := decide (ninety_days_micros ≤ elapsed)
          let all_keys := st.user_auction_bids.map Prod.fst
          let new_bids :=
            all_keys.foldl (pruneStep prune_all auction_id) st.user_auction_bids
          let st2 := { st with user_auction_bids := new_bids }
          if prune_all then
            match alGet st2.auctions auction_id with
            | none => none
            | some auction_mut =>
              let auction2 := { auction_mut with bids_pruned := true }
              let auctions2 := alInsert st2.auctions auction_id auction2
              some ({ st2 with auctions := auctions2 },
                [], AuctionResponse.Ok)
          else
            some (st2, [], AuctionResponse.Ok)

/-- AuctionContract::settle_auction. -/
def settle_auction (st : AuctionState) (now auction_id : Nat) :
    Option (AuctionState × List AuctionEvent) :=
  match alGet st.auctions auction_id with
  | none => none
  | some auction =>
    match auction.clearing_price with
    | none => none
    | some clearing_price =>
      let auction2 := { auction with
        status := AuctionStatus.Settled
        settled_at := some now }
      some ({ st with auctions := alInsert st.auctions auction_id auction2 },
        [AuctionEvent.AuctionSettled auction_id clearing_price
          auction.total_bidders auction.sold])

/-- AuctionContract::calculate_current_price (contract method; reads the
auction parameters and delegates to the shared utility). -/
def contract_calculate_current_price (st : AuctionState)
    (now auction_id : Nat) : Option Nat :=
  match alGet st.auctions auction_id with
  | none => none
  | some auction =>
    calculate_current_price auction.params.start_price
      auction.params.floor_price auction.params.price_decay_amount
      auction.params.price_decay_interval auction.params.start_time now

/-- AuctionContract::validate_auction_state: first component `none`
models the Err(()) rejection (events already emitted), `some s` the
Ok(s) outcome. -/
def validate_auction_state (current_status : AuctionStatus)
    (start_time end_time now auction_id user_account : Nat) :
    Option (Option AuctionStatus) × List AuctionEvent :=
  if current_status = AuctionStatus.Scheduled then
    if start_time ≤ now then
      (some (some AuctionStatus.Active), [])
    else
      (none, [AuctionEvent.BidRejected auction_id user_account
        ("Auction not started yet. Starts at: " ++ timestampDebug start_time)])
  else if end_time < now ∧ current_status = AuctionStatus.Active then
    (none, [AuctionEvent.BidRejected auction_id user_account
      ("Auction expired at: " ++ timestampDebug end_time)])
  else if current_status ≠ AuctionStatus.Active then
    (none, [AuctionEvent.BidRejected auction_id user_account
      "Auction not active"])
  else
    (some none, [])

/-- AuctionContract::validate_bid. The third component is
`some validation` for Ok and `none` for the Err(()) soft rejection. -/
def validate_bid (st : AuctionState) (now auction_id quantity bidder : Nat) :
    Option (AuctionState × List AuctionEvent × Option BidValidation) :=
  match contract_calculate_current_price st now auction_id with
  | none => none
  | some current_price =>
    match alGet st.auctions auction_id with
    | none => none
    | some auction =>
      let current_status := auction.status
      let start_time := auction.params.start_time
      let end_time := auction.params.end_time
      let total_supply := auction.total_supply
      let sold := auction.sold
      let payment_token_app := auction.params.payment_token_app
      if end_time < now ∧ current_status = AuctionStatus.Active then
        let auction2 := { auction with clearing_price := some current_price }
        let st2 := { st with
          auctions := alInsert st.auctions auction_id auction2 }
        match settle_auction st2 now auction_id with
        | none => none
        | some (st3, settle_events) =>
          some (st3, settle_events ++
            [AuctionEvent.BidRejected auction_id bidder
              ("Auction expired at: " ++ timestampDebug end_time)], none)
      else
        match validate_auction_state current_status start_time end_time now
            auction_id bidder with
        | (none, events) => some (st, events, none)
        | (some new_status, _) =>
          let st2 := match new_status with
            | some status => { st with
                auctions := alInsert st.auctions auction_id
                  { auction with status := status } }
            | none => st
          let remaining := Amount.satSub total_supply sold
          if remaining = 0 then
            some (st2,
              [AuctionEvent.BidRejected auction_id bidder "Supply exhausted"],
              none)
          else
            let accepted_quantity := min quantity remaining
            let amount_paid := Amount.satMul current_price accepted_quantity
            let will_exhaust_supply : Bool :=
              decide (total_supply ≤ Amount.satAdd sold accepted_quantity)
            some (st2, [], some
              { bidder := bidder
                accepted_quantity := accepted_quantity
                amount_paid := amount_paid
                current_price := current_price
                payment_token_app := payment_token_app
                should_settle := will_exhaust_supply })

/-- AuctionContract::execute_bid. -/
def execute_bid (st : AuctionState) (now auction_id : Nat)
    (validation : BidValidation) :
    Option (AuctionState × List AuctionEvent × BidRecord) :=
  let bid_id := st.next_bid_id
  let st2 := { st with next_bid_id := bid_id + 1 }
  let bid : BidRecord :=
    { bid_id := bid_id
      auction_id := auction_id
      user_account := validation.bidder
      quantity := validation.accepted_quantity
      amount_paid := validation.amount_paid
      timestamp := now
      claimed := false }
  let user_bids := (alGet st2.user_auction_bids
    (validation.bidder, auction_id)).getD []
  let is_first_bid := user_bids.isEmpty
  let bids2 := alInsert st2.user_auction_bids (validation.bidder, auction_id)
    (user_bids ++ [bid])
  let st3 := { st2 with user_auction_bids := bids2 }
  match alGet st3.auctions auction_id with
  | none => none
  | some auction =>
    let auction2 := { auction with
      sold := Amount.satAdd auction.sold validation.accepted_quantity
      total_bids := auction.total_bids + 1
      total_bidders := auction.total_bidders +
        (if is_first_bid then 1 else 0) }
    let st4 := { st3 with
      auctions := alInsert st3.auctions auction_id auction2 }
    let total_sold := auction2.sold
    let remaining := Amount.satSub auction2.total_supply auction2.sold
    let user_total := (alGet st4.user_totals
      (auction_id, validation.bidder)).getD 0
    let totals2 := alInsert st4.user_totals (auction_id, validation.bidder)
      (Amount.satAdd user_total validation.accepted_quantity)
    let st5 := { st4 with user_totals := totals2 }
    some (st5,
      [AuctionEvent.PaymentReceived auction_id bid.user_account
        bid.amount_paid bid.bid_id,
       AuctionEvent.BidAccepted auction_id bid.bid_id bid.user_account
        bid.quantity bid.amount_paid total_sold remaining],
      bid)

/-- AuctionContract::handle_place_bid; the outcome of the synchronous
payment-collection call into the fungible-token collaborator is passed
in as `payment_fails` (spec section 6: the transfer either fully
completes or fails synchronously). -/
def handle_place_bid (st : AuctionState) (chain_id app_id : Nat)
    (bidder now auction_id quantity : Nat) (payment_fails : Option String) :
    Option (AuctionState × List AuctionEvent × List ExtCall ×
      AuctionResponse) :=
  match validate_bid st now auction_id quantity bidder with
  | none => none
  | some (st2, events1, none) => some (st2, events1, [], AuctionResponse.Ok)
  | some (st2, events1, some validation) =>
    match payment_fails with
    | some reason =>
      some (st2, events1 ++
        [AuctionEvent.BidRejected auction_id bidder
          ("Payment failed: " ++ reason ++
            ". Ensure you have sufficient fungible token balance on AAC")],
        [], AuctionResponse.Ok)
    | none =>
      let pay_call := ExtCall.Transfer validation.payment_token_app
        validation.bidder validation.amount_paid
        { chain_id := chain_id, owner := app_id }
      match execute_bid st2 now auction_id validation with
      | none => none
      | some (st3, events2, bid) =>
        let settled : Option (AuctionState × List AuctionEvent) :=
          if validation.should_settle then
            match alGet st3.auctions auction_id with
            | none => none
            | some auction =>
              let auction2 :=
                { auction with
                  clearing_price := some validation.current_price }
              let auctions2 := alInsert st3.auctions auction_id auction2
              settle_auction { st3 with auctions := auctions2 } now auction_id
          else some (st3, [])
        match settled with
        | none => none
        | some (st4, events3) =>
          some (st4, events1 ++ events2 ++ events3, [pay_call],
            AuctionResponse.BidPlaced auction_id bid.bid_id bidder
              bid.quantity bid.amount_paid bid.timestamp bid.claimed)

/-- AuctionContract::load_claim_data: `none` models the assert/expect
panics, `some none` the Err(()) early exit (no unclaimed bids),
`some (some data)` the Ok outcome. -/
def load_claim_data (st : AuctionState) (auction_id user_account : Nat) :
    Option (Option ClaimData) :=
  match alGet st.auctions auction_id with
  | none => none
  | some auction =>
    if auction.status ≠ AuctionStatus.Settled then none
    else
      match auction.clearing_price with
      | none => none
      | some clearing_price =>
        let user_bids := (alGet st.user_auction_bids
          (user_account, auction_id)).getD []
        let unclaimed_bids := user_bids.filter (fun bid => !bid.claimed)
        if unclaimed_bids.isEmpty then some none
        else some (some
          { unclaimed_bids := unclaimed_bids
            clearing_price := clearing_price
            payment_token_app := auction.params.payment_token_app
            auction_token_app := auction.params.auction_token_app })

/-- AuctionContract::calculate_settlement (pure). -/
def calculate_settlement (claim_data : ClaimData) : Settlement :=
  let totals := claim_data.unclaimed_bids.foldl
    (fun acc bid => (Amount.satAdd acc.1 bid.quantity,
      Amount.satAdd acc.2 bid.amount_paid)) (0, 0)
  let total_quantity := totals.1
  let total_paid := totals.2
  let total_cost := Amount.satMul claim_data.clearing_price total_quantity
  let refund := Amount.satSub total_paid total_cost
  { total_quantity := total_quantity
    total_cost := total_cost
    refund := refund }

/-- Sum of amount_paid over a bid list, exactly as the fold inside
calculate_settlement computes it. -/
def total_paid_of (bids : List BidRecord) : Nat :=
  (bids.foldl (fun acc bid => (Amount.satAdd acc.1 bid.quantity,
    Amount.satAdd acc.2 bid.amount_paid)) (0, 0)).2

/-- AuctionContract::refund_payment (escrow to user; assumed-infallible
transfer, so it always succeeds in the model). -/
def refund_payment (chain_id app_id auction_id bidder refund_amount
    payment_token_app : Nat) : List ExtCall × List AuctionEvent :=
  if refund_amount = 0 then ([], [])
  else
    ([ExtCall.Transfer payment_token_app app_id refund_amount
        { chain_id := chain_id, owner := bidder }],
     [AuctionEvent.RefundIssued auction_id bidder refund_amount])

/-- AuctionContract::auction_token_transfer (escrow to user). -/
def auction_token_transfer (chain_id app_id bidder allocated_quantity
    auction_token_app : Nat) : List ExtCall :=
  if allocated_quantity = 0 then []
  else
    [ExtCall.Transfer auction_token_app app_id allocated_quantity
      { chain_id := chain_id, owner := bidder }]

/-- AuctionContract::execute_settlement. -/
def execute_settlement (st : AuctionState) (chain_id app_id : Nat)
    (auction_id user_account : Nat) (settlement : Settlement)
    (claim_data : ClaimData) :
    AuctionState × List AuctionEvent × List ExtCall :=
  let user_bids := (alGet st.user_auction_bids
    (user_account, auction_id)).getD []
  let user_bids2 := user_bids.map (fun bid =>
    if !bid.claimed then { bid with claimed := true } else bid)
  let bids2 := alInsert st.user_auction_bids (user_account, auction_id)
    user_bids2
  let st2 := { st with user_auction_bids := bids2 }
  let refunded := refund_payment chain_id app_id auction_id user_account
    settlement.refund claim_data.payment_token_app
  let token_calls := auction_token_transfer chain_id app_id user_account
    settlement.total_quantity claim_data.auction_token_app
  (st2,
   refunded.2 ++ [AuctionEvent.SettlementClaimed auction_id user_account
     settlement.total_quantity claim_data.clearing_price
     settlement.total_cost settlement.refund],
   refunded.1 ++ token_calls)

/-- AuctionContract::handle_claim_settlement. -/
def handle_claim_settlement (st : AuctionState) (chain_id app_id : Nat)
    (caller auction_id : Nat) :
    Option (AuctionState × List AuctionEvent × List ExtCall ×
      AuctionResponse) :=
  match load_claim_data st auction_id caller with
  | none => none
  | some none => some (st, [], [], AuctionResponse.Ok)
  | some (some claim_data) =>
    let settlement := calculate_settlement claim_data
    let result := execute_settlement st chain_id app_id auction_id caller
      settlement claim_data
    some (result.1, result.2.1, result.2.2, AuctionResponse.Ok)

/-! ## Operation dispatch (Contract::execute_operation) -/

inductive AuctionOperation where
  | CreateAuction (params : AuctionParams)
  | CancelAuction (auction_id : Nat)
  | PruneSettledAuction (auction_id : Nat)
  | Trigger
  | Buy (auction_id : Nat) (quantity : Nat)
  | SubscribeToAuction (aac_chain : Nat)
  | UnsubscribeFromAuction (aac_chain : Nat)
  | ClaimSettlement (auction_id : Nat)
deriving DecidableEq

/-- One authenticated invocation of the contract: the signer, the block
time, the oracle outcome of the payment-collection call (only relevant
for Buy) and the operation itself. -/
structure OpInvocation where
  caller : Nat
  now : Nat
  payment_fails : Option String
  op : AuctionOperation
deriving DecidableEq

/-- Machine-representability of the operation input (its Rust field
types): the total supply of a created auction is a u128 `Amount`. -/
def OpInvocation.wfb (inv : OpInvocation) : Bool :=
  match inv.op with
  | AuctionOperation.CreateAuction params =>
    decide (params.total_supply ≤ AMOUNT_MAX)
  | _ => true

def execute_operation (chain_id app_id : Nat) (st : AuctionState)
    (inv : OpInvocation) :
    Option (AuctionState × List AuctionEvent × List ExtCall ×
      AuctionResponse) :=
  match inv.op with
  | AuctionOperation.CreateAuction params =>
    let result := handle_create_auction st inv.caller inv.now params
    some (result.1, result.2.1, [], result.2.2)
  | AuctionOperation.CancelAuction auction_id =>
    (handle_cancel_auction st inv.caller auction_id).map
      (fun r => (r.1, r.2.1, [], r.2.2))
  | AuctionOperation.PruneSettledAuction auction_id =>
    (handle_prune_settled_auction st inv.now auction_id).map
      (fun r => (r.1, r.2.1, [], r.2.2))
  | AuctionOperation.Trigger => some (st, [], [], AuctionResponse.Ok)
  | AuctionOperation.Buy auction_id quantity =>
    handle_place_bid st chain_id app_id inv.caller inv.now auction_id
      quantity inv.payment_fails
  | AuctionOperation.SubscribeToAuction _ =>
    some (st, [], [], AuctionResponse.Ok)
  | AuctionOperation.UnsubscribeFromAuction _ =>
    some (st, [], [], AuctionResponse.Ok)
  | AuctionOperation.ClaimSettlement auction_id =>
    handle_claim_settlement st chain_id app_id inv.caller auction_id

def run_ops (chain_id app_id : Nat) :
    AuctionState → List OpInvocation → Option AuctionState
  | st, [] => some st
  | st, inv :: rest =>
    match execute_operation chain_id app_id st inv with
    | none => none
    | some r => run_ops chain_id app_id r.1 rest

/-! ## C3: settlement arithmetic -/

/-- The clearing-cost of the folded totals never exceeds the folded
payments, provided each summed bid individually paid at least its cost at
the clearing price. -/
theorem satMul_fold_le (c : Nat) (l : List BidRecord) :
    ∀ q0 p0, Amount.satMul c q0 ≤ p0 →
    (∀ bid ∈ l, Amount.satMul c bid.quantity ≤ bid.amount_paid) →
    Amount.satMul c
      (l.foldl (fun acc bid => (Amount.satAdd acc.1 bid.quantity,
        Amount.satAdd acc.2 bid.amount_paid)) (q0, p0)).1 ≤
    (l.foldl (fun acc bid => (Amount.satAdd acc.1 bid.quantity,
      Amount.satAdd acc.2 bid.amount_paid)) (q0, p0)).2 := by
  induction l with
  | nil =>
    intro q0 p0 h0 _
    simpa using h0
  | cons bid rest ih =>
    intro q0 p0 h0 hall
    have hb : Amount.satMul c bid.quantity ≤ bid.amount_paid :=
      hall bid (List.mem_cons_self _ _)
    have hstep : Amount.satMul c (Amount.satAdd q0 bid.quantity) ≤
        Amount.satAdd p0 bid.amount_paid :=
      le_trans (Amount.satMul_satAdd_le c q0 bid.quantity)
        (Amount.satAdd_mono h0 hb)
    simpa using ih (Amount.satAdd q0 bid.quantity)
      (Amount.satAdd p0 bid.amount_paid) hstep
      (fun b hb2 => hall b (List.mem_cons_of_mem _ hb2))

theorem total_cost_le_total_paid (cd : ClaimData)
    (h : ∀ bid ∈ cd.unclaimed_bids,
      Amount.satMul cd.clearing_price bid.quantity ≤ bid.amount_paid) :
    (calculate_settlement cd).total_cost ≤ total_paid_of cd.unclaimed_bids := by
  have h0 : Amount.satMul cd.clearing_price 0 ≤ 0 := by
    simp [Amount.satMul]
  simpa [calculate_settlement, total_paid_of] using
    satMul_fold_le cd.clearing_price cd.unclaimed_bids 0 0 h0 h

/-- C3: for a settled auction's claim data, the amounts computed by
calculate_settlement satisfy total_paid = total_cost + refund exactly,
provided the clearing price is no greater than the per-unit price each
summed bid was paid at, i.e. the clearing-price cost of each bid does not
exceed the amount it paid (the normal-operation precondition). -/
theorem C3_settlement_exact (cd : ClaimData)
    (h : ∀ bid ∈ cd.unclaimed_bids,
      Amount.satMul cd.clearing_price bid.quantity ≤ bid.amount_paid) :
    total_paid_of cd.unclaimed_bids =
      (calculate_settlement cd).total_cost + (calculate_settlement cd).refund := by
  have hle := total_cost_le_total_paid cd h
  have hrefund : (calculate_settlement cd).refund =
      total_paid_of cd.unclaimed_bids - (calculate_settlement cd).total_cost := by
    simp [calculate_settlement, total_paid_of, Amount.satSub]
  rw [hrefund]
  omega

def c3_example_data : ClaimData :=
  { unclaimed_bids :=
      [{ bid_id := 0, auction_id := 0, user_account := 2, quantity := 10
         amount_paid := 1000, timestamp := 5, claimed := false },
       { bid_id := 1, auction_id := 0, user_account := 2, quantity := 4
         amount_paid := 360, timestamp := 9, claimed := false }]
    clearing_price := 80
    payment_token_app := 7
    auction_token_app := 8 }

theorem C3_settlement_exact_witness :
    (∀ bid ∈ c3_example_data.unclaimed_bids,
      Amount.satMul c3_example_data.clearing_price bid.quantity ≤
        bid.amount_paid) ∧
    total_paid_of c3_example_data.unclaimed_bids =
      (calculate_settlement c3_example_data).total_cost +
        (calculate_settlement c3_example_data).refund :=
  ⟨by decide, C3_settlement_exact c3_example_data (by decide)⟩

/-! ## Effect lemmas for the bid pipeline -/

theorem settle_auction_effect (st : AuctionState) (now auction_id : Nat)
    (st2 : AuctionState) (events : List AuctionEvent)
    (h : settle_auction st now auction_id = some (st2, events)) :
    ∃ a cp, alGet st.auctions auction_id = some a ∧
      a.clearing_price = some cp ∧
      st2 = { st with
              auctions :=
                alInsert st.auctions auction_id
                  ({ a with
                     status := AuctionStatus.Settled
                     settled_at := some now }) } ∧
      events = [AuctionEvent.AuctionSettled auction_id cp
        a.total_bidders a.sold] := by
  unfold settle_auction at h
  split at h
  · simp at h
  next a hget =>
    split at h
    · simp at h
    next cp hcp =>
      simp at h
      exact ⟨a, cp, hget, hcp, h.1.symm, h.2.symm⟩

theorem validate_auction_state_ok (cs : AuctionStatus)
    (start_time end_time now auction_id user_account : Nat)
    (res : Option AuctionStatus) (events : List AuctionEvent)
    (h : validate_auction_state cs start_time end_time now auction_id
      user_account = (some res, events)) :
    (cs = AuctionStatus.Scheduled ∧ start_time ≤ now ∧
      res = some AuctionStatus.Active) ∨
    (cs = AuctionStatus.Active ∧ ¬ end_time < now ∧ res = none) := by
  unfold validate_auction_state at h
  by_cases h1 : cs = AuctionStatus.Scheduled
  · rw [if_pos h1] at h
    by_cases h2 : start_time ≤ now
    · rw [if_pos h2] at h
      simp at h
      exact Or.inl ⟨h1, h2, h.1.symm⟩
    · rw [if_neg h2] at h
      simp at h
  · rw [if_neg h1] at h
    by_cases h2 : end_time < now ∧ cs = AuctionStatus.Active
    · rw [if_pos h2] at h
      simp at h
    · rw [if_neg h2] at h
      by_cases h3 : cs ≠ AuctionStatus.Active
      · rw [if_pos h3] at h
        simp at h
      · rw [if_neg h3] at h
        simp at h
        push_neg at h3
        refine Or.inr ⟨h3, fun hlt => h2 ⟨hlt, h3⟩, h.1.symm⟩

theorem validate_bid_reject_effect (st : AuctionState)
    (now auction_id quantity bidder : Nat) (st2 : AuctionState)
    (events : List AuctionEvent)
    (h : validate_bid st now auction_id quantity bidder =
      some (st2, events, none)) :
    st2.user_auction_bids = st.user_auction_bids ∧
    st2.user_totals = st.user_totals ∧
    st2.next_bid_id = st.next_bid_id ∧
    st2.next_auction_id = st.next_auction_id ∧
    (∀ id, id ≠ auction_id → alGet st2.auctions id = alGet st.auctions id) ∧
    ∃ a a2, alGet st.auctions auction_id = some a ∧
      alGet st2.auctions auction_id = some a2 ∧
      a2.sold = a.sold ∧ a2.total_supply = a.total_supply ∧
      a2.params = a.params := by
  unfold validate_bid at h
  split at h
  · simp at h
  next current_price hprice =>
    split at h
    · simp at h
    next auction hget =>
      dsimp only at h
      split at h
      · -- lazy-expiry branch: clearing price is fixed and the auction
        -- settles before the rejection is emitted
        split at h
        · simp at h
        next st3 sev hsettle =>
          simp at h
          obtain ⟨hst3, _⟩ := h
          obtain ⟨a2, cp, hget2, _, hst3eq, _⟩ :=
            settle_auction_effect _ _ _ _ _ hsettle
          rw [alGet_alInsert_self] at hget2
          obtain rfl : ({ auction with
              clearing_price := some current_price } : AuctionData) = a2 :=
            Option.some.inj hget2
          subst hst3
          subst hst3eq
          refine ⟨rfl, rfl, rfl, rfl, ?_, ?_⟩
          · intro id hid
            rw [alGet_alInsert_ne _ _ _ _ hid, alGet_alInsert_ne _ _ _ _ hid]
          · exact ⟨auction, _, hget, alGet_alInsert_self _ _ _, rfl, rfl, rfl⟩
      · -- no expiry: lifecycle validation
        split at h
        · -- Err(()) from validate_auction_state: state unchanged
          simp at h
          obtain ⟨hst, _⟩ := h
          subst hst
          exact ⟨rfl, rfl, rfl, rfl, fun id _ => rfl,
            auction, auction, hget, hget, rfl, rfl, rfl⟩
        next new_status events2 hvas =>
          -- Ok path: possible Scheduled to Active write, then the
          -- supply check; a rejection here means remaining = 0
          split at h
          · -- remaining = 0 branch
            simp at h
            obtain ⟨hst, _⟩ := h
            rcases validate_auction_state_ok _ _ _ _ _ _ _ _ hvas with
              ⟨hsch, hstart, hres⟩ | ⟨hact, hnow, hres⟩
            · subst hres
              subst hst
              refine ⟨rfl, rfl, rfl, rfl, ?_, ?_⟩
              · intro id hid
                exact alGet_alInsert_ne _ _ _ _ hid
              · exact ⟨auction, _, hget, alGet_alInsert_self _ _ _,
                  rfl, rfl, rfl⟩
            · subst hres
              subst hst
              exact ⟨rfl, rfl, rfl, rfl, fun id _ => rfl,
                auction, auction, hget, hget, rfl, rfl, rfl⟩
          · -- accepted branch contradicts the `none` result
            simp at h

theorem validate_bid_ok_cases (st : AuctionState)
    (now auction_id quantity bidder : Nat) (st2 : AuctionState)
    (events : List AuctionEvent) (v : BidValidation)
    (h : validate_bid st now auction_id quantity bidder =
      some (st2, events, some v)) :
    ∃ a current_price,
      alGet st.auctions auction_id = some a ∧
      contract_calculate_current_price st now auction_id =
        some current_price ∧
      events = [] ∧
      (st2 = st ∨ (a.status = AuctionStatus.Scheduled ∧
        st2 = { st with
                auctions :=
                  alInsert st.auctions auction_id
                    ({ a with status := AuctionStatus.Active }) })) ∧
      Amount.satSub a.total_supply a.sold ≠ 0 ∧
      v = { bidder := bidder
            accepted_quantity :=
              min quantity (Amount.satSub a.total_supply a.sold)
            amount_paid := Amount.satMul current_price
              (min quantity (Amount.satSub a.total_supply a.sold))
            current_price := current_price
            payment_token_app := a.params.payment_token_app
            should_settle := decide (a.total_supply ≤
              Amount.satAdd a.sold
                (min quantity (Amount.satSub a.total_supply a.sold))) } := by
  unfold validate_bid at h
  split at h
  · simp at h
  next current_price hprice =>
    split at h
    · simp at h
    next auction hget =>
      dsimp only at h
      split at h
      · -- expiry branch yields a `none` validation, contradiction
        split at h
        · simp at h
        · simp at h
      · split at h
        · simp at h
        next new_status events2 hvas =>
          split at h
          · simp at h
          next hrem =>
            simp at h
            obtain ⟨hst, hev, hv⟩ := h
            refine ⟨auction, current_price, hget, hprice, hev, ?_,
              hrem, hv.symm⟩
            rcases validate_auction_state_ok _ _ _ _ _ _ _ _ hvas with
              ⟨hsch, hstart, hres⟩ | ⟨hact, hnow, hres⟩
            · subst hres
              exact Or.inr ⟨hsch, hst.symm⟩
            · subst hres
              exact Or.inl hst.symm

theorem execute_bid_effect (st : AuctionState) (now auction_id : Nat)
    (v : BidValidation) (st2 : AuctionState) (events : List AuctionEvent)
    (bid : BidRecord)
    (h : execute_bid st now auction_id v = some (st2, events, bid)) :
    st2.next_auction_id = st.next_auction_id ∧
    bid.quantity = v.accepted_quantity ∧
    bid.claimed = false ∧
    bid.user_account = v.bidder ∧
    bid.amount_paid = v.amount_paid ∧
    (∀ id, id ≠ auction_id → alGet st2.auctions id = alGet st.auctions id) ∧
    ∃ a tb, alGet st.auctions auction_id = some a ∧
      alGet st2.auctions auction_id = some
        ({ a with
           sold := Amount.satAdd a.sold v.accepted_quantity
           total_bids := a.total_bids + 1
           total_bidders := tb }) := by
  unfold execute_bid at h
  dsimp only at h
  split at h
  · simp at h
  next auction hget =>
    simp at h
    obtain ⟨hst, _, hbid⟩ := h
    subst hst
    refine ⟨rfl, ?_, ?_, ?_, ?_, ?_, ?_⟩
    · rw [← hbid]
    · rw [← hbid]
    · rw [← hbid]
    · rw [← hbid]
    · intro id hid
      exact alGet_alInsert_ne _ _ _ _ hid
    · exact ⟨auction, _, hget, alGet_alInsert_self _ _ _⟩

theorem handle_place_bid_effect (st : AuctionState) (chain_id app_id : Nat)
    (bidder now auction_id quantity : Nat) (pf : Option String)
    (st2 : AuctionState) (events : List AuctionEvent) (calls : List ExtCall)
    (resp : AuctionResponse)
    (h : handle_place_bid st chain_id app_id bidder now auction_id quantity
      pf = some (st2, events, calls, resp)) :
    st2.next_auction_id = st.next_auction_id ∧
    (∀ id, id ≠ auction_id → alGet st2.auctions id = alGet st.auctions id) ∧
    ∃ a a2, alGet st.auctions auction_id = some a ∧
      alGet st2.auctions auction_id = some a2 ∧
      a2.total_supply = a.total_supply ∧
      ((resp = AuctionResponse.Ok ∧ a2.sold = a.sold) ∨
       (Amount.satSub a.total_supply a.sold ≠ 0 ∧
        a2.sold = Amount.satAdd a.sold
          (min quantity (Amount.satSub a.total_supply a.sold)) ∧
        ∃ bi amt ts, resp = AuctionResponse.BidPlaced auction_id bi bidder
          (min quantity (Amount.satSub a.total_supply a.sold))
          amt ts false)) := by
  unfold handle_place_bid at h
  split at h
  · simp at h
  next st1 events1 hvb =>
    simp at h
    obtain ⟨hst1, _, _, hok⟩ := h
    subst hst1
    obtain ⟨_, _, _, hnid, hne, a, a2, hga, hga2, hsold, hsup, _⟩ :=
      validate_bid_reject_effect _ _ _ _ _ _ _ hvb
    exact ⟨hnid, hne, a, a2, hga, hga2, hsup,
      Or.inl ⟨hok.symm, hsold⟩⟩
  next st1 events1 v hvb =>
    obtain ⟨a, p, hga, hp, hev1, hcase, hrem, hv⟩ :=
      validate_bid_ok_cases _ _ _ _ _ _ _ _ hvb
    obtain ⟨a1, ha1, ha1sold, ha1sup, hne1, hnid1⟩ :
        ∃ a1, alGet st1.auctions auction_id = some a1 ∧
          a1.sold = a.sold ∧ a1.total_supply = a.total_supply ∧
          (∀ id, id ≠ auction_id →
            alGet st1.auctions id = alGet st.auctions id) ∧
          st1.next_auction_id = st.next_auction_id := by
      rcases hcase with rfl | ⟨hsch, rfl⟩
      · exact ⟨a, hga, rfl, rfl, fun id _ => rfl, rfl⟩
      · exact ⟨_, alGet_alInsert_self _ _ _, rfl, rfl,
          fun id hid => alGet_alInsert_ne _ _ _ _ hid, rfl⟩
    split at h
    · -- payment failure: soft rejection, no further mutation
      simp at h
      obtain ⟨hst2, _, _, hok⟩ := h
      subst hst2
      exact ⟨hnid1, hne1, a, a1, hga, ha1, ha1sup,
        Or.inl ⟨hok.symm, ha1sold⟩⟩
    · -- payment collected: execute the bid, maybe settle
      split at h
      · simp at h
      next st3 events2 bid hexe =>
        obtain ⟨hnid3, hbq, hbc, _, _, hne3, a1b, tb, ha1b, ha3⟩ :=
          execute_bid_effect _ _ _ _ _ _ _ hexe
        obtain rfl : a1 = a1b := by
          rw [ha1] at ha1b
          exact Option.some.inj ha1b
        dsimp only at h
        split at h
        · simp at h
        next st4 events3 hsettled =>
          simp at h
          obtain ⟨hst4, _, _, hresp⟩ := h
          subst hst4
          have hacc : v.accepted_quantity =
              min quantity (Amount.satSub a.total_supply a.sold) := by
            rw [hv]
          have hsoldval : (Amount.satAdd a1.sold v.accepted_quantity) =
              Amount.satAdd a.sold
                (min quantity (Amount.satSub a.total_supply a.sold)) := by
            rw [ha1sold, hacc]
          -- analyse the settlement continuation
          have hfinal : st4.next_auction_id = st3.next_auction_id ∧
              (∀ id, id ≠ auction_id →
                alGet st4.auctions id = alGet st3.auctions id) ∧
              ∃ a4, alGet st4.auctions auction_id = some a4 ∧
                a4.sold = Amount.satAdd a1.sold v.accepted_quantity ∧
                a4.total_supply = a1.total_supply := by
            split at hsettled
            · -- should_settle: clearing price write then settle_auction
              split at hsettled
              · simp at hsettled
              next auction3 hga3b =>
                obtain rfl : ({ a1 with
                    sold := Amount.satAdd a1.sold v.accepted_quantity
                    total_bids := a1.total_bids + 1
                    total_bidders := tb } : AuctionData) = auction3 := by
                  rw [ha3] at hga3b
                  exact Option.some.inj hga3b
                obtain ⟨aX, cp, hgaX, _, hst4eq, _⟩ :=
                  settle_auction_effect _ _ _ _ _ hsettled
                rw [alGet_alInsert_self] at hgaX
                obtain rfl := Option.some.inj hgaX
                subst hst4eq
                refine ⟨rfl, ?_, ?_⟩
                · intro id hid
                  rw [alGet_alInsert_ne _ _ _ _ hid,
                    alGet_alInsert_ne _ _ _ _ hid]
                · exact ⟨_, alGet_alInsert_self _ _ _, rfl, rfl⟩
            · -- no settlement: state unchanged
              simp at hsettled
              obtain ⟨hst4, _⟩ := hsettled
              subst hst4
              exact ⟨rfl, fun id _ => rfl, _, ha3, rfl, rfl⟩
          obtain ⟨hnid4, hne4, a4, ha4, ha4sold, ha4sup⟩ := hfinal
          refine ⟨by rw [hnid4, hnid3, hnid1], ?_,
            a, a4, hga, ha4, by rw [ha4sup, ha1sup], ?_⟩
          · intro id hid
            rw [hne4 id hid, hne3 id hid, hne1 id hid]
          · refine Or.inr ⟨hrem, by rw [ha4sold, hsoldval], ?_⟩
            refine ⟨bid.bid_id, bid.amount_paid, bid.timestamp, ?_⟩
            rw [← hresp, hbc, hbq, hacc]

/-! ## C2: lazy expiry settlement on a bid past end_time -/

/-- Outcome required by claim C2 of a bid evaluated past `end_time`
against an Active auction `a`: the bid is rejected (response Ok, no
record appended, `sold` unchanged), the clearing price is fixed at the
decay-model price of that instant, and the auction transitions to
Settled with `settled_at = now`, all inside the same operation. -/
def C2_post (st : AuctionState) (chain_id app_id bidder now auction_id
    quantity : Nat) (pf : Option String) (a : AuctionData) : Prop :=
  ∃ p, calculate_current_price a.params.start_price a.params.floor_price
      a.params.price_decay_amount a.params.price_decay_interval
      a.params.start_time now = some p ∧
    ∃ st4, handle_place_bid st chain_id app_id bidder now auction_id
        quantity pf =
        some (st4,
          [AuctionEvent.AuctionSettled auction_id p a.total_bidders a.sold,
           AuctionEvent.BidRejected auction_id bidder
             ("Auction expired at: " ++ timestampDebug a.params.end_time)],
          [], AuctionResponse.Ok) ∧
      alGet st4.auctions auction_id = some
        ({ a with
           clearing_price := some p
           status := AuctionStatus.Settled
           settled_at := some now }) ∧
      (∀ id, id ≠ auction_id → alGet st4.auctions id = alGet st.auctions id) ∧
      st4.user_auction_bids = st.user_auction_bids ∧
      st4.user_totals = st.user_totals ∧
      st4.next_bid_id = st.next_bid_id ∧
      st4.next_auction_id = st.next_auction_id

/-- C2: a bid evaluated at `now > end_time` against an Active auction is
rejected without creating a BidRecord or changing `sold`, fixes
`clearing_price` at the decay-model price of that instant, and settles
the auction (status Settled, `settled_at = now`) within that same
operation. The decay interval must be positive for the decay model to be
defined (it divides by the interval). -/
theorem C2_expired_bid_settles (st : AuctionState)
    (chain_id app_id bidder now auction_id quantity : Nat)
    (pf : Option String) (a : AuctionData)
    (ha : alGet st.auctions auction_id = some a)
    (hActive : a.status = AuctionStatus.Active)
    (hexp : a.params.end_time < now)
    (hdi : 0 < a.params.price_decay_interval) :
    C2_post st chain_id app_id bidder now auction_id quantity pf a := by
  obtain ⟨p, hp⟩ := calculate_current_price_isSome a.params.start_price
    a.params.floor_price a.params.price_decay_amount
    a.params.price_decay_interval a.params.start_time now hdi
  have hpc : contract_calculate_current_price st now auction_id = some p := by
    unfold contract_calculate_current_price
    rw [ha]
    exact hp
  refine ⟨p, hp, ?_⟩
  refine ⟨{ st with
            auctions := alInsert
              (alInsert st.auctions auction_id
                ({ a with clearing_price := some p }))
              auction_id
              ({ a with
                 clearing_price := some p
                 status := AuctionStatus.Settled
                 settled_at := some now }) }, ?_, ?_, ?_, rfl, rfl, rfl, rfl⟩
  · simp only [handle_place_bid, validate_bid, hpc, ha, hActive, hexp,
      settle_auction, alGet_alInsert_self, and_true, if_true]
    simp [hexp]
  · exact alGet_alInsert_self _ _ _
  · intro id hid
    rw [alGet_alInsert_ne _ _ _ _ hid, alGet_alInsert_ne _ _ _ _ hid]

def c2_params : AuctionParams :=
  { item_name := "c2", image := "", total_supply := 5, max_bid_amount := 100
    start_price := 50, floor_price := 5, price_decay_interval := 60
    price_decay_amount := 1, start_time := 0, end_time := 10, creator := 1
    payment_token_app := 7, auction_token_app := 8 }

def c2_state : AuctionState :=
  (handle_create_auction initial_state 1 5 c2_params).1

theorem C2_expired_bid_settles_witness :
    alGet c2_state.auctions 0 = some (AuctionData.new c2_params 5) ∧
    (AuctionData.new c2_params 5).status = AuctionStatus.Active ∧
    (AuctionData.new c2_params 5).params.end_time < 20 ∧
    0 < (AuctionData.new c2_params 5).params.price_decay_interval ∧
    C2_post c2_state 0 99 2 20 0 3 none (AuctionData.new c2_params 5) :=
  ⟨by decide, by decide, by decide, by decide,
    C2_expired_bid_settles c2_state 0 99 2 20 0 3 none _
      (by decide) (by decide) (by decide) (by decide)⟩

/-! ## C6: payment failure handling -/

def c6_params : AuctionParams :=
  { item_name := "c6", image := "", total_supply := 5, max_bid_amount := 100
    start_price := 50, floor_price := 5, price_decay_interval := 60
    price_decay_amount := 1, start_time := 100, end_time := 1000, creator := 1
    payment_token_app := 7, auction_token_app := 8 }

def c6_state : AuctionState :=
  (handle_create_auction initial_state 1 50 c6_params).1

/-- C6 (counterexample): a bid on a Scheduled auction after its
start_time whose payment collection fails still mutates auction state:
the Scheduled→Active status transition performed during validation
persists even though the bid is rejected (the operation itself completes
with Ok and emits the rejection). So "mutates no auction state" is false
as stated. -/
theorem C6_counterexample :
    (alGet c6_state.auctions 0).map AuctionData.status =
      some AuctionStatus.Scheduled ∧
    ((handle_place_bid c6_state 0 99 2 200 0 3
        (some "insufficient balance")).map
      (fun r => ((alGet r.1.auctions 0).map AuctionData.status,
        r.2.2.2))) =
      some (some AuctionStatus.Active, AuctionResponse.Ok) := by
  exact ⟨by decide, by decide⟩

/-- Conclusion of the amended claim C6: on payment failure the operation
returns Ok, emits the rejection with the failure reason, appends no
BidRecord, touches neither counter nor user totals nor any other
auction, and the only possible auction mutation is the Scheduled→Active
status write already performed during validation. -/
def C6_post (st : AuctionState) (chain_id app_id bidder now auction_id
    quantity : Nat) (reason : String) (st1 : AuctionState)
    (events1 : List AuctionEvent) : Prop :=
  handle_place_bid st chain_id app_id bidder now auction_id quantity
    (some reason) =
    some (st1, events1 ++
      [AuctionEvent.BidRejected auction_id bidder
        ("Payment failed: " ++ reason ++
          ". Ensure you have sufficient fungible token balance on AAC")],
      [], AuctionResponse.Ok) ∧
  st1.user_auction_bids = st.user_auction_bids ∧
  st1.user_totals = st.user_totals ∧
  st1.next_bid_id = st.next_bid_id ∧
  st1.next_auction_id = st.next_auction_id ∧
  (∀ id, id ≠ auction_id → alGet st1.auctions id = alGet st.auctions id) ∧
  ∃ a, alGet st.auctions auction_id = some a ∧
    (st1 = st ∨ (a.status = AuctionStatus.Scheduled ∧
      st1 = { st with
              auctions := alInsert st.auctions auction_id
                ({ a with status := AuctionStatus.Active }) }))

/-- C6 (amended): for every bid that passes validation and whose
payment-collection call fails, place-bid completes as a soft rejection
(Ok response, rejection event carrying the failure reason) and mutates
no bid, counter or user-total state and no auction state except for the
Scheduled→Active status transition performed during validation, which
persists. -/
theorem C6_payment_failure_soft (st : AuctionState)
    (chain_id app_id bidder now auction_id quantity : Nat) (reason : String)
    (st1 : AuctionState) (events1 : List AuctionEvent) (v : BidValidation)
    (hv : validate_bid st now auction_id quantity bidder =
      some (st1, events1, some v)) :
    C6_post st chain_id app_id bidder now auction_id quantity reason st1
      events1 := by
  obtain ⟨a, p, hga, _, _, hcase, _, _⟩ :=
    validate_bid_ok_cases _ _ _ _ _ _ _ _ hv
  refine ⟨?_, ?_, ?_, ?_, ?_, ?_, a, hga, hcase⟩
  · simp only [handle_place_bid, hv]
  · rcases hcase with rfl | ⟨_, rfl⟩ <;> rfl
  · rcases hcase with rfl | ⟨_, rfl⟩ <;> rfl
  · rcases hcase with rfl | ⟨_, rfl⟩ <;> rfl
  · rcases hcase with rfl | ⟨_, rfl⟩ <;> rfl
  · rcases hcase with rfl | ⟨_, rfl⟩
    · exact fun id _ => rfl
    · exact fun id hid => alGet_alInsert_ne _ _ _ _ hid

def c6_st1 : AuctionState :=
  { c6_state with
    auctions := alInsert c6_state.auctions 0
      ({ AuctionData.new c6_params 50 with status := AuctionStatus.Active }) }

def c6_v : BidValidation :=
  { bidder := 2, accepted_quantity := 3, amount_paid := 147
    current_price := 49, payment_token_app := 7, should_settle := false }

theorem C6_payment_failure_soft_witness :
    validate_bid c6_state 200 0 3 2 = some (c6_st1, [], some c6_v) ∧
    C6_post c6_state 0 99 2 200 0 3 "insufficient balance" c6_st1 [] :=
  ⟨by decide,
    C6_payment_failure_soft c6_state 0 99 2 200 0 3 "insufficient balance"
      c6_st1 [] c6_v (by decide)⟩

/-! ## C5: claim idempotence -/

/-- C5: per (auction, claimant), after a claim that pays out (the
auction is settled and the claimant has at least one unclaimed record),
every gathered BidRecord is marked claimed, and a second immediately
following claim by the same claimant gathers zero unclaimed records and
is a no-op: same state, no events, no transfers, Ok response. -/
theorem C5_claim_idempotent (st : AuctionState)
    (chain_id app_id caller auction_id : Nat) (cd : ClaimData)
    (hload : load_claim_data st auction_id caller = some (some cd)) :
    ∃ st1 events calls,
      handle_claim_settlement st chain_id app_id caller auction_id =
        some (st1, events, calls, AuctionResponse.Ok) ∧
      (∀ bid ∈ (alGet st1.user_auction_bids (caller, auction_id)).getD [],
        bid.claimed = true) ∧
      handle_claim_settlement st1 chain_id app_id caller auction_id =
        some (st1, [], [], AuctionResponse.Ok) := by
  have hfacts : ∃ auction cp,
      alGet st.auctions auction_id = some auction ∧
      auction.status = AuctionStatus.Settled ∧
      auction.clearing_price = some cp := by
    unfold load_claim_data at hload
    split at hload
    · simp at hload
    next auction hga =>
      split at hload
      · simp at hload
      next hstat =>
        split at hload
        · simp at hload
        next cp hcp =>
          push_neg at hstat
          exact ⟨auction, cp, hga, hstat, hcp⟩
  obtain ⟨auction, cp, hga, hstat, hcp⟩ := hfacts
  have heq : (execute_settlement st chain_id app_id auction_id caller
      (calculate_settlement cd) cd).1 =
      { st with
        user_auction_bids := alInsert st.user_auction_bids
          (caller, auction_id)
          (((alGet st.user_auction_bids (caller, auction_id)).getD []).map
            (fun bid => if !bid.claimed then { bid with claimed := true }
              else bid)) } := rfl
  refine ⟨(execute_settlement st chain_id app_id auction_id caller
      (calculate_settlement cd) cd).1,
    (execute_settlement st chain_id app_id auction_id caller
      (calculate_settlement cd) cd).2.1,
    (execute_settlement st chain_id app_id auction_id caller
      (calculate_settlement cd) cd).2.2, ?_, ?_, ?_⟩
  · simp only [handle_claim_settlement, hload]
  · rw [heq]
    intro bid hb
    rw [alGet_alInsert_self] at hb
    simp only [Option.getD_some] at hb
    obtain ⟨b0, _, rfl⟩ := List.mem_map.mp hb
    by_cases hc : b0.claimed <;> simp [hc]
  · rw [heq]
    have hload2 : load_claim_data
        ({ st with
           user_auction_bids := alInsert st.user_auction_bids
             (caller, auction_id)
             (((alGet st.user_auction_bids (caller, auction_id)).getD
               []).map (fun bid => if !bid.claimed then
                 { bid with claimed := true } else bid)) })
        auction_id caller = some none := by
      unfold load_claim_data
      rw [show alGet ({ st with
           user_auction_bids := alInsert st.user_auction_bids
             (caller, auction_id)
             (((alGet st.user_auction_bids (caller, auction_id)).getD
               []).map (fun bid => if !bid.claimed then
                 { bid with claimed := true } else bid)) } :
          AuctionState).auctions auction_id = some auction from hga]
      simp [hstat, hcp, alGet_alInsert_self]
      intro x _
      by_cases hc : x.claimed <;> simp [hc]
    simp only [handle_claim_settlement, hload2]

def c5_params : AuctionParams :=
  { item_name := "c5", image := "", total_supply := 5, max_bid_amount := 100
    start_price := 10, floor_price := 1, price_decay_interval := 60
    price_decay_amount := 1, start_time := 0, end_time := 1000, creator := 1
    payment_token_app := 7, auction_token_app := 8 }

def c5_state : AuctionState :=
  ((handle_place_bid (handle_create_auction initial_state 1 0 c5_params).1
      0 99 2 0 0 5 none).getD
    ((handle_create_auction initial_state 1 0 c5_params).1, [], [],
      AuctionResponse.Ok)).1

def c5_cd : ClaimData :=
  { unclaimed_bids :=
      [{ bid_id := 0, auction_id := 0, user_account := 2, quantity := 5
         amount_paid := 50, timestamp := 0, claimed := false }]
    clearing_price := 10
    payment_token_app := 7
    auction_token_app := 8 }

theorem C5_claim_idempotent_witness :
    load_claim_data c5_state 0 2 = some (some c5_cd) ∧
    (∃ st1 events calls,
      handle_claim_settlement c5_state 0 99 2 0 =
        some (st1, events, calls, AuctionResponse.Ok) ∧
      (∀ bid ∈ (alGet st1.user_auction_bids (2, 0)).getD [],
        bid.claimed = true) ∧
      handle_claim_settlement st1 0 99 2 0 =
        some (st1, [], [], AuctionResponse.Ok)) :=
  ⟨by decide, C5_claim_idempotent c5_state 0 99 2 0 c5_cd (by decide)⟩

/-! ## C7: claim on a non-settled auction -/

def c7_params : AuctionParams :=
  { item_name := "c7", image := "", total_supply := 5, max_bid_amount := 100
    start_price := 10, floor_price := 1, price_decay_interval := 60
    price_decay_amount := 1, start_time := 0, end_time := 1000, creator := 1
    payment_token_app := 7, auction_token_app := 8 }

def c7_state : AuctionState :=
  (handle_create_auction initial_state 1 0 c7_params).1

/-- C7 (counterexample): invoking claim on an auction that is Active
(not Settled) ABORTS the whole operation (the Rust code hits
`assert_eq!(status, Settled, "Auction not settled yet")`, modelled as
`none`); it does not complete as a no-op with an Ok result. -/
theorem C7_counterexample :
    (alGet c7_state.auctions 0).map AuctionData.status =
      some AuctionStatus.Active ∧
    handle_claim_settlement c7_state 0 99 2 0 = none ∧
    handle_claim_settlement c7_state 0 99 2 0 ≠
      some (c7_state, [], [], AuctionResponse.Ok) := by
  refine ⟨by decide, by decide, by decide⟩

/-- C7 (amended): for every auction whose status is not Settled,
invoking claim aborts the operation with a fatal assertion failure
("Auction not settled yet"); no state change is committed (an aborted
operation commits nothing), but it is an abort, not an Ok no-op. -/
theorem C7_claim_unsettled_aborts (st : AuctionState)
    (chain_id app_id caller auction_id : Nat) (a : AuctionData)
    (ha : alGet st.auctions auction_id = some a)
    (hns : a.status ≠ AuctionStatus.Settled) :
    handle_claim_settlement st chain_id app_id caller auction_id = none := by
  unfold handle_claim_settlement load_claim_data
  rw [ha]
  simp [hns]

theorem C7_claim_unsettled_aborts_witness :
    (AuctionData.new c7_params 0).status ≠ AuctionStatus.Settled ∧
    handle_claim_settlement c7_state 0 99 2 0 = none :=
  ⟨by decide,
    C7_claim_unsettled_aborts c7_state 0 99 2 0 (AuctionData.new c7_params 0)
      (by decide) (by decide)⟩

/-! ## C10: creation-time status and cancellability -/

/-- C10: the create-auction operation derives the initial status from
the creation-time clock: when `now ≥ start_time` the auction is created
directly in status Active (never observable as Scheduled), and such an
auction can never be cancelled, because cancellation asserts status =
Scheduled (and aborts otherwise, for any caller). -/
theorem C10_create_active_uncancellable (params : AuctionParams) (now : Nat)
    (hnow : params.start_time ≤ now) :
    (AuctionData.new params now).status = AuctionStatus.Active ∧
    (∀ st0 caller,
      alGet ((handle_create_auction st0 caller now params).1).auctions
        st0.next_auction_id = some (AuctionData.new params now)) ∧
    (∀ st auction_id caller,
      alGet st.auctions auction_id = some (AuctionData.new params now) →
      handle_cancel_auction st caller auction_id = none) := by
  have hstatus : (AuctionData.new params now).status = AuctionStatus.Active := by
    unfold AuctionData.new
    simp [Nat.not_lt.mpr hnow]
  refine ⟨hstatus, ?_, ?_⟩
  · intro st0 caller
    exact alGet_alInsert_self _ _ _
  · intro st auction_id caller ha
    unfold handle_cancel_auction
    rw [ha]
    by_cases hcr : caller ≠ (AuctionData.new params now).params.creator
    · simp [hcr]
    · simp [hcr, hstatus]

theorem C10_create_active_uncancellable_witness :
    c7_params.start_time ≤ 0 ∧
    ((AuctionData.new c7_params 0).status = AuctionStatus.Active ∧
     (∀ st0 caller,
       alGet ((handle_create_auction st0 caller 0 c7_params).1).auctions
         st0.next_auction_id = some (AuctionData.new c7_params 0)) ∧
     (∀ st auction_id caller,
       alGet st.auctions auction_id = some (AuctionData.new c7_params 0) →
       handle_cancel_auction st caller auction_id = none)) :=
  ⟨by decide, C10_create_active_uncancellable c7_params 0 (by decide)⟩

/-! ## C8: two-tier pruning -/

/-- Pointwise effect of one pruning iteration on the bid list stored
under a key of the pruned auction: tier 2 removes it, tier 1 keeps only
the unclaimed records and removes the entry when none remain. -/
def pruneTransform (prune_all : Bool) (o : Option (List BidRecord)) :
    Option (List BidRecord) :=
  if prune_all then none
  else
    let fb := (o.getD []).filter (fun b => !b.claimed)
    if fb.isEmpty then none else some fb

theorem pruneStep_get_ne (pa : Bool) (aid : Nat)
    (m : List ((Nat × Nat) × List BidRecord)) (key k : Nat × Nat)
    (h : k ≠ key) :
    alGet (pruneStep pa aid m key) k = alGet m k := by
  unfold pruneStep
  split
  · split
    · exact alGet_alRemove_ne _ _ _ h
    · dsimp only
      split
      · exact alGet_alRemove_ne _ _ _ h
      · exact alGet_alInsert_ne _ _ _ _ h
  · rfl

theorem pruneStep_get_self (pa : Bool) (aid : Nat)
    (m : List ((Nat × Nat) × List BidRecord)) (key : Nat × Nat) :
    alGet (pruneStep pa aid m key) key =
      (if key.2 = aid then pruneTransform pa (alGet m key)
       else alGet m key) := by
  unfold pruneStep pruneTransform
  by_cases hkey : key.2 = aid
  · rw [if_pos hkey, if_pos hkey]
    by_cases hpa : pa
    · simp [hpa, alGet_alRemove_self]
    · simp only [hpa, if_false, Bool.false_eq_true]
      by_cases hemp :
          (((alGet m key).getD []).filter (fun b => !b.claimed)).isEmpty
      · simp [hemp, alGet_alRemove_self]
      · simp [hemp, alGet_alInsert_self]
  · rw [if_neg hkey, if_neg hkey]

theorem prune_fold_get_not_mem (pa : Bool) (aid : Nat)
    (keys : List (Nat × Nat)) :
    ∀ (m : List ((Nat × Nat) × List BidRecord)) (k : Nat × Nat),
      k ∉ keys →
      alGet (keys.foldl (pruneStep pa aid) m) k = alGet m k := by
  induction keys with
  | nil => intro m k _; rfl
  | cons key rest ih =>
    intro m k hk
    have hk1 : k ≠ key := fun hc => hk (hc ▸ List.mem_cons_self _ _)
    have hk2 : k ∉ rest := fun hc => hk (List.mem_cons_of_mem _ hc)
    rw [List.foldl_cons, ih _ _ hk2, pruneStep_get_ne _ _ _ _ _ hk1]

theorem prune_fold_get_mem (pa : Bool) (aid : Nat)
    (keys : List (Nat × Nat)) :
    ∀ (m : List ((Nat × Nat) × List BidRecord)) (k : Nat × Nat),
      keys.Nodup → k ∈ keys →
      alGet (keys.foldl (pruneStep pa aid) m) k =
        (if k.2 = aid then pruneTransform pa (alGet m k) else alGet m k) := by
  induction keys with
  | nil =>
    intro m k _ hk
    simp at hk
  | cons key rest ih =>
    intro m k hnd hk
    obtain ⟨hhead, htail⟩ := List.nodup_cons.mp hnd
    rw [List.foldl_cons]
    rcases List.mem_cons.mp hk with rfl | hmem
    · rw [prune_fold_get_not_mem _ _ _ _ _ hhead, pruneStep_get_self]
    · have hk1 : k ≠ key := fun hc => hhead (hc ▸ hmem)
      rw [ih _ _ htail hmem, pruneStep_get_ne _ _ _ _ _ hk1]

/-- C8: for a settled auction, prune aborts when less than one hour has
elapsed since settlement; between one hour and 90 days it drops exactly
the claimed BidRecords from every (bidder, this auction) list, removing
an entry only when it becomes empty, and leaves other auctions' entries
and the auctions map untouched; from 90 days on it removes every bid
entry of this auction regardless of claimed state and sets the
auction's bids_pruned flag. -/
theorem C8_prune_two_tier (st : AuctionState) (now auction_id : Nat)
    (a : AuctionData) (t : Nat)
    (ha : alGet st.auctions auction_id = some a)
    (hs : a.status = AuctionStatus.Settled)
    (hsa : a.settled_at = some t)
    (hnd : (st.user_auction_bids.map Prod.fst).Nodup) :
    (now - t < one_hour_micros →
      handle_prune_settled_auction st now auction_id = none) ∧
    (one_hour_micros ≤ now - t → now - t < ninety_days_micros →
      ∃ st2, handle_prune_settled_auction st now auction_id =
          some (st2, [], AuctionResponse.Ok) ∧
        st2.auctions = st.auctions ∧
        (∀ u aid2, aid2 ≠ auction_id →
          alGet st2.user_auction_bids (u, aid2) =
            alGet st.user_auction_bids (u, aid2)) ∧
        (∀ u, alGet st2.user_auction_bids (u, auction_id) =
          pruneTransform false
            (alGet st.user_auction_bids (u, auction_id)))) ∧
    (ninety_days_micros ≤ now - t →
      ∃ st2, handle_prune_settled_auction st now auction_id =
          some (st2, [], AuctionResponse.Ok) ∧
        (∀ u, alGet st2.user_auction_bids (u, auction_id) = none) ∧
        (∀ u aid2, aid2 ≠ auction_id →
          alGet st2.user_auction_bids (u, aid2) =
            alGet st.user_auction_bids (u, aid2)) ∧
        alGet st2.auctions auction_id =
          some ({ a with bids_pruned := true }) ∧
        (∀ id, id ≠ auction_id →
          alGet st2.auctions id = alGet st.auctions id)) := by
  have hbids : ∀ (pa : Bool) (k : Nat × Nat),
      alGet ((st.user_auction_bids.map Prod.fst).foldl
        (pruneStep pa auction_id) st.user_auction_bids) k =
      (if k.2 = auction_id then
        pruneTransform pa (alGet st.user_auction_bids k)
       else alGet st.user_auction_bids k) := by
    intro pa k
    by_cases hmem : k ∈ st.user_auction_bids.map Prod.fst
    · exact prune_fold_get_mem _ _ _ _ _ hnd hmem
    · rw [prune_fold_get_not_mem _ _ _ _ _ hmem]
      have hnone : alGet st.user_auction_bids k = none :=
        alGet_eq_none_of_not_mem hmem
      rw [hnone]
      by_cases hk2 : k.2 = auction_id
      · simp [hk2, pruneTransform]
      · simp [hk2]
  refine ⟨?_, ?_, ?_⟩
  · intro h1
    simp [handle_prune_settled_auction, ha, hs, hsa, h1]
  · intro h1 h2
    have h1n : ¬ (now - t < one_hour_micros) := by omega
    have h2n : ¬ (ninety_days_micros ≤ now - t) := by omega
    refine ⟨{ st with
              user_auction_bids := (st.user_auction_bids.map
                Prod.fst).foldl (pruneStep false auction_id)
                st.user_auction_bids }, ?_, rfl, ?_, ?_⟩
    · simp [handle_prune_settled_auction, ha, hs, hsa, h1n, h2n]
    · intro u aid2 hne
      have := hbids false (u, aid2)
      simpa [hne] using this
    · intro u
      have := hbids false (u, auction_id)
      simpa using this
  · intro h2
    have h1n : ¬ (now - t < one_hour_micros) := by
      unfold one_hour_micros ninety_days_micros at *
      omega
    refine ⟨{ st with
              user_auction_bids := (st.user_auction_bids.map
                Prod.fst).foldl (pruneStep true auction_id)
                st.user_auction_bids
              auctions := alInsert st.auctions auction_id
                ({ a with bids_pruned := true }) }, ?_, ?_, ?_, ?_, ?_⟩
    · simp [handle_prune_settled_auction, ha, hs, hsa, h1n, h2]
    · intro u
      have := hbids true (u, auction_id)
      simpa [pruneTransform] using this
    · intro u aid2 hne
      have := hbids true (u, aid2)
      simpa [hne] using this
    · exact alGet_alInsert_self _ _ _
    · intro id hid
      exact alGet_alInsert_ne _ _ _ _ hid

def c8_params : AuctionParams :=
  { item_name := "c8", image := "", total_supply := 5, max_bid_amount := 100
    start_price := 10, floor_price := 1, price_decay_interval := 60
    price_decay_amount := 1, start_time := 0, end_time := 1000, creator := 1
    payment_token_app := 7, auction_token_app := 8 }

def c8_s1 : AuctionState :=
  ((handle_place_bid (handle_create_auction initial_state 1 0 c8_params).1
      0 99 2 0 0 3 none).getD
    (initial_state, [], [], AuctionResponse.Ok)).1

def c8_s2 : AuctionState :=
  ((handle_place_bid c8_s1 0 99 3 0 0 2 none).getD
    (initial_state, [], [], AuctionResponse.Ok)).1

def c8_state : AuctionState :=
  ((handle_claim_settlement c8_s2 0 99 2 0).getD
    (initial_state, [], [], AuctionResponse.Ok)).1

def c8_auction : AuctionData :=
  (alGet c8_state.auctions 0).getD (AuctionData.new c8_params 0)

theorem C8_prune_two_tier_witness :
    alGet c8_state.auctions 0 = some c8_auction ∧
    c8_auction.status = AuctionStatus.Settled ∧
    c8_auction.settled_at = some 0 ∧
    (c8_state.user_auction_bids.map Prod.fst).Nodup ∧
    (∃ st2, handle_prune_settled_auction c8_state 3600000000 0 =
        some (st2, [], AuctionResponse.Ok) ∧
      st2.auctions = c8_state.auctions ∧
      (∀ u aid2, aid2 ≠ 0 →
        alGet st2.user_auction_bids (u, aid2) =
          alGet c8_state.user_auction_bids (u, aid2)) ∧
      (∀ u, alGet st2.user_auction_bids (u, 0) =
        pruneTransform false (alGet c8_state.user_auction_bids (u, 0)))) :=
  ⟨by decide, by decide, by decide, by decide,
    (C8_prune_two_tier c8_state 3600000000 0 c8_auction 0
      (by decide) (by decide) (by decide) (by decide)).2.1
      (by decide) (by decide)⟩

/-! ## C1: supply invariant over operation sequences -/

theorem handle_claim_settlement_auctions (st : AuctionState)
    (chain_id app_id caller auction_id : Nat) (st2 : AuctionState)
    (ev : List AuctionEvent) (calls : List ExtCall) (resp : AuctionResponse)
    (h : handle_claim_settlement st chain_id app_id caller auction_id =
      some (st2, ev, calls, resp)) :
    st2.auctions = st.auctions ∧
    st2.next_auction_id = st.next_auction_id := by
  unfold handle_claim_settlement at h
  split at h
  · simp at h
  · simp at h
    obtain ⟨hst, _⟩ := h
    subst hst
    exact ⟨rfl, rfl⟩
  · simp at h
    obtain ⟨hst, _⟩ := h
    subst hst
    exact ⟨rfl, rfl⟩

theorem handle_cancel_auction_effect (st : AuctionState)
    (caller auction_id : Nat) (st2 : AuctionState)
    (ev : List AuctionEvent) (resp : AuctionResponse)
    (h : handle_cancel_auction st caller auction_id =
      some (st2, ev, resp)) :
    st2.next_auction_id = st.next_auction_id ∧
    st2.user_auction_bids = st.user_auction_bids ∧
    ∃ a, alGet st.auctions auction_id = some a ∧
      st2.auctions = alInsert st.auctions auction_id
        ({ a with status := AuctionStatus.Cancelled }) := by
  unfold handle_cancel_auction at h
  split at h
  · simp at h
  next a hget =>
    split at h
    · simp at h
    · split at h
      · simp at h
      · simp at h
        obtain ⟨hst, _⟩ := h
        subst hst
        exact ⟨rfl, rfl, a, hget, rfl⟩

theorem handle_prune_effect (st : AuctionState) (now auction_id : Nat)
    (st2 : AuctionState) (ev : List AuctionEvent) (resp : AuctionResponse)
    (h : handle_prune_settled_auction st now auction_id =
      some (st2, ev, resp)) :
    st2.next_auction_id = st.next_auction_id ∧
    ∃ a, alGet st.auctions auction_id = some a ∧
      (st2.auctions = st.auctions ∨
       st2.auctions = alInsert st.auctions auction_id
         ({ a with bids_pruned := true })) := by
  unfold handle_prune_settled_auction at h
  split at h
  · simp at h
  next a hget =>
    split at h
    · simp at h
    · split at h
      · simp at h
      · dsimp only at h
        split at h
        · simp at h
        · split at h
          · split at h
            · simp at h
            next am hgetm =>
              have hgetm2 : alGet st.auctions auction_id = some am := hgetm
              rw [hget] at hgetm2
              obtain rfl := Option.some.inj hgetm2
              simp at h
              obtain ⟨hst, _⟩ := h
              subst hst
              exact ⟨rfl, _, hget, Or.inr rfl⟩
          · simp at h
            obtain ⟨hst, _⟩ := h
            subst hst
            exact ⟨rfl, a, hget, Or.inl rfl⟩

/-- Reachability invariant of the auction state: every stored auction
has an identifier below the next-id counter, its `sold` does not exceed
its `total_supply`, and the supply is a representable u128 amount. -/
def state_inv (st : AuctionState) : Prop :=
  ∀ id a, alGet st.auctions id = some a →
    id < st.next_auction_id ∧ a.sold ≤ a.total_supply ∧
    a.total_supply ≤ AMOUNT_MAX

theorem state_inv_initial : state_inv initial_state := by
  intro id a hga
  simp [alGet, initial_state] at hga

theorem execute_operation_preserves_inv (chain_id app_id : Nat)
    (st : AuctionState) (inv : OpInvocation) (st2 : AuctionState)
    (ev : List AuctionEvent) (calls : List ExtCall)
    (resp : AuctionResponse)
    (hinv : state_inv st) (hwf : inv.wfb = true)
    (h : execute_operation chain_id app_id st inv =
      some (st2, ev, calls, resp)) :
    state_inv st2 := by
  obtain ⟨caller, now, pf, op⟩ := inv
  cases op with
  | CreateAuction params =>
    simp only [OpInvocation.wfb] at hwf
    have hsup : params.total_supply ≤ AMOUNT_MAX := of_decide_eq_true hwf
    simp only [execute_operation, handle_create_auction] at h
    simp at h
    obtain ⟨hst, _⟩ := h
    subst hst
    intro id a hga
    by_cases hid : id = st.next_auction_id
    · subst hid
      rw [alGet_alInsert_self] at hga
      obtain rfl := Option.some.inj hga
      exact ⟨Nat.lt_succ_self _, Nat.zero_le _, hsup⟩
    · rw [alGet_alInsert_ne _ _ _ _ hid] at hga
      obtain ⟨h1, h2, h3⟩ := hinv id a hga
      exact ⟨Nat.lt_succ_of_lt h1, h2, h3⟩
  | CancelAuction auction_id =>
    simp only [execute_operation, Option.map_eq_some'] at h
    obtain ⟨⟨st3, ev3, resp3⟩, hc, heq⟩ := h
    simp at heq
    obtain ⟨hst, _⟩ := heq
    subst hst
    obtain ⟨hnid, _, a, hget, hauc⟩ :=
      handle_cancel_auction_effect _ _ _ _ _ _ hc
    intro id a2 hga2
    rw [hauc] at hga2
    rw [hnid]
    by_cases hid : id = auction_id
    · subst hid
      rw [alGet_alInsert_self] at hga2
      obtain rfl := Option.some.inj hga2
      exact hinv id a hget
    · rw [alGet_alInsert_ne _ _ _ _ hid] at hga2
      exact hinv id a2 hga2
  | PruneSettledAuction auction_id =>
    simp only [execute_operation, Option.map_eq_some'] at h
    obtain ⟨⟨st3, ev3, resp3⟩, hc, heq⟩ := h
    simp at heq
    obtain ⟨hst, _⟩ := heq
    subst hst
    obtain ⟨hnid, a, hget, hauc⟩ := handle_prune_effect _ _ _ _ _ _ hc
    intro id a2 hga2
    rw [hnid]
    rcases hauc with hauc | hauc
    · rw [hauc] at hga2
      exact hinv id a2 hga2
    · rw [hauc] at hga2
      by_cases hid : id = auction_id
      · subst hid
        rw [alGet_alInsert_self] at hga2
        obtain rfl := Option.some.inj hga2
        exact hinv id a hget
      · rw [alGet_alInsert_ne _ _ _ _ hid] at hga2
        exact hinv id a2 hga2
  | Trigger =>
    simp only [execute_operation] at h
    simp at h
    obtain ⟨hst, _⟩ := h
    subst hst
    exact hinv
  | Buy auction_id quantity =>
    simp only [execute_operation] at h
    obtain ⟨hnid, hne, a, a2, hga, hga2, hsup, hcases⟩ :=
      handle_place_bid_effect _ _ _ _ _ _ _ _ _ _ _ _ h
    intro id a3 hga3
    rw [hnid]
    by_cases hid : id = auction_id
    · subst hid
      rw [hga2] at hga3
      obtain rfl := Option.some.inj hga3
      obtain ⟨h1, h2, h3⟩ := hinv id a hga
      refine ⟨h1, ?_, by rw [hsup]; exact h3⟩
      rcases hcases with ⟨_, hsold⟩ | ⟨_, hsold, _⟩
      · rw [hsold, hsup]
        exact h2
      · rw [hsold, hsup]
        unfold Amount.satAdd Amount.satSub
        omega
    · rw [hne id hid] at hga3
      exact hinv id a3 hga3
  | SubscribeToAuction c =>
    simp only [execute_operation] at h
    simp at h
    obtain ⟨hst, _⟩ := h
    subst hst
    exact hinv
  | UnsubscribeFromAuction c =>
    simp only [execute_operation] at h
    simp at h
    obtain ⟨hst, _⟩ := h
    subst hst
    exact hinv
  | ClaimSettlement auction_id =>
    simp only [execute_operation] at h
    obtain ⟨hauc, hnid⟩ := handle_claim_settlement_auctions _ _ _ _ _ _ _ _ _ h
    intro id a hga
    rw [hauc] at hga
    rw [hnid]
    exact hinv id a hga

theorem execute_operation_sold_step (chain_id app_id : Nat)
    (st : AuctionState) (inv : OpInvocation) (st2 : AuctionState)
    (ev : List AuctionEvent) (calls : List ExtCall)
    (resp : AuctionResponse)
    (hinv : state_inv st)
    (h : execute_operation chain_id app_id st inv =
      some (st2, ev, calls, resp)) :
    ∀ id a a2, alGet st.auctions id = some a →
      alGet st2.auctions id = some a2 →
      a.sold ≤ a2.sold ∧ a2.total_supply = a.total_supply ∧
      (a.sold ≤ a.total_supply → a2.sold ≤ a2.total_supply) := by
  obtain ⟨caller, now, pf, op⟩ := inv
  cases op with
  | CreateAuction params =>
    simp only [execute_operation, handle_create_auction] at h
    simp at h
    obtain ⟨hst, _⟩ := h
    subst hst
    intro id a a2 hga hga2
    by_cases hid : id = st.next_auction_id
    · subst hid
      exact absurd (hinv _ _ hga).1 (Nat.lt_irrefl _)
    · rw [alGet_alInsert_ne _ _ _ _ hid] at hga2
      rw [hga] at hga2
      obtain rfl := Option.some.inj hga2
      exact ⟨le_rfl, rfl, fun hs => hs⟩
  | CancelAuction auction_id =>
    simp only [execute_operation, Option.map_eq_some'] at h
    obtain ⟨⟨st3, ev3, resp3⟩, hc, heq⟩ := h
    simp at heq
    obtain ⟨hst, _⟩ := heq
    subst hst
    obtain ⟨_, _, a0, hget, hauc⟩ := handle_cancel_auction_effect _ _ _ _ _ _ hc
    intro id a a2 hga hga2
    rw [hauc] at hga2
    by_cases hid : id = auction_id
    · subst hid
      rw [alGet_alInsert_self] at hga2
      obtain rfl := Option.some.inj hga2
      rw [hget] at hga
      obtain rfl := Option.some.inj hga
      exact ⟨le_rfl, rfl, fun hs => hs⟩
    · rw [alGet_alInsert_ne _ _ _ _ hid] at hga2
      rw [hga] at hga2
      obtain rfl := Option.some.inj hga2
      exact ⟨le_rfl, rfl, fun hs => hs⟩
  | PruneSettledAuction auction_id =>
    simp only [execute_operation, Option.map_eq_some'] at h
    obtain ⟨⟨st3, ev3, resp3⟩, hc, heq⟩ := h
    simp at heq
    obtain ⟨hst, _⟩ := heq
    subst hst
    obtain ⟨_, a0, hget, hauc⟩ := handle_prune_effect _ _ _ _ _ _ hc
    intro id a a2 hga hga2
    rcases hauc with hauc | hauc
    · rw [hauc] at hga2
      rw [hga] at hga2
      obtain rfl := Option.some.inj hga2
      exact ⟨le_rfl, rfl, fun hs => hs⟩
    · rw [hauc] at hga2
      by_cases hid : id = auction_id
      · subst hid
        rw [alGet_alInsert_self] at hga2
        obtain rfl := Option.some.inj hga2
        rw [hget] at hga
        obtain rfl := Option.some.inj hga
        exact ⟨le_rfl, rfl, fun hs => hs⟩
      · rw [alGet_alInsert_ne _ _ _ _ hid] at hga2
        rw [hga] at hga2
        obtain rfl := Option.some.inj hga2
        exact ⟨le_rfl, rfl, fun hs => hs⟩
  | Trigger =>
    simp only [execute_operation] at h
    simp at h
    obtain ⟨hst, _⟩ := h
    subst hst
    intro id a a2 hga hga2
    rw [hga] at hga2
    obtain rfl := Option.some.inj hga2
    exact ⟨le_rfl, rfl, fun hs => hs⟩
  | Buy auction_id quantity =>
    simp only [execute_operation] at h
    obtain ⟨hnid, hne, a0, a02, hga0, hga02, hsup, hcases⟩ :=
      handle_place_bid_effect _ _ _ _ _ _ _ _ _ _ _ _ h
    intro id a a2 hga hga2
    by_cases hid : id = auction_id
    · subst hid
      rw [hga0] at hga
      obtain rfl := Option.some.inj hga
      rw [hga02] at hga2
      obtain rfl := Option.some.inj hga2
      obtain ⟨_, _, hmax⟩ := hinv _ _ hga0
      refine ⟨?_, hsup, ?_⟩
      · rcases hcases with ⟨_, hsold⟩ | ⟨_, hsold, _⟩
        · rw [hsold]
        · rw [hsold]
          refine Amount.le_satAdd_left _ ?_
          exact le_trans (hinv _ _ hga0).2.1 hmax
      · intro hs
        rcases hcases with ⟨_, hsold⟩ | ⟨_, hsold, _⟩
        · rw [hsold, hsup]
          exact hs
        · rw [hsold, hsup]
          unfold Amount.satAdd Amount.satSub
          omega
    · rw [hne id hid] at hga2
      rw [hga] at hga2
      obtain rfl := Option.some.inj hga2
      exact ⟨le_rfl, rfl, fun hs => hs⟩
  | SubscribeToAuction c =>
    simp only [execute_operation] at h
    simp at h
    obtain ⟨hst, _⟩ := h
    subst hst
    intro id a a2 hga hga2
    rw [hga] at hga2
    obtain rfl := Option.some.inj hga2
    exact ⟨le_rfl, rfl, fun hs => hs⟩
  | UnsubscribeFromAuction c =>
    simp only [execute_operation] at h
    simp at h
    obtain ⟨hst, _⟩ := h
    subst hst
    intro id a a2 hga hga2
    rw [hga] at hga2
    obtain rfl := Option.some.inj hga2
    exact ⟨le_rfl, rfl, fun hs => hs⟩
  | ClaimSettlement auction_id =>
    simp only [execute_operation] at h
    obtain ⟨hauc, _⟩ := handle_claim_settlement_auctions _ _ _ _ _ _ _ _ _ h
    intro id a a2 hga hga2
    rw [hauc] at hga2
    rw [hga] at hga2
    obtain rfl := Option.some.inj hga2
    exact ⟨le_rfl, rfl, fun hs => hs⟩

theorem run_ops_preserves_inv (chain_id app_id : Nat)
    (ops : List OpInvocation) :
    ∀ st st2, state_inv st → (∀ inv ∈ ops, inv.wfb = true) →
      run_ops chain_id app_id st ops = some st2 → state_inv st2 := by
  induction ops with
  | nil =>
    intro st st2 hinv _ hrun
    unfold run_ops at hrun
    obtain rfl := Option.some.inj hrun
    exact hinv
  | cons inv rest ih =>
    intro st st2 hinv hwf hrun
    unfold run_ops at hrun
    split at hrun
    · simp at hrun
    next r heq =>
      exact ih r.1 st2
        (execute_operation_preserves_inv chain_id app_id st inv r.1
          r.2.1 r.2.2.1 r.2.2.2 hinv (hwf inv (List.mem_cons_self _ _))
          (by rw [heq]))
        (fun i hi => hwf i (List.mem_cons_of_mem _ hi)) hrun

/-- C1: over every operation sequence from the initial state, each
auction's `sold` never exceeds its `total_supply` and is non-decreasing
across any further operation; an accepted bid (BidPlaced response) adds
exactly min(requested quantity, total_supply - sold) to `sold`, and a
bid arriving when total_supply - sold is zero is rejected (plain Ok
response) without changing `sold`. -/
theorem C1_sold_invariant (chain_id app_id : Nat) (ops : List OpInvocation)
    (st : AuctionState)
    (hwf : ∀ inv ∈ ops, inv.wfb = true)
    (hrun : run_ops chain_id app_id initial_state ops = some st) :
    (∀ id a, alGet st.auctions id = some a → a.sold ≤ a.total_supply) ∧
    (∀ inv st2 ev calls resp,
      execute_operation chain_id app_id st inv =
        some (st2, ev, calls, resp) →
      ∀ id a a2, alGet st.auctions id = some a →
        alGet st2.auctions id = some a2 →
        a.sold ≤ a2.sold ∧ a2.sold ≤ a2.total_supply) ∧
    (∀ caller now pf aid q st2 ev calls resp a a2,
      execute_operation chain_id app_id st
        { caller := caller, now := now, payment_fails := pf,
          op := AuctionOperation.Buy aid q } =
        some (st2, ev, calls, resp) →
      alGet st.auctions aid = some a → alGet st2.auctions aid = some a2 →
      ((∃ bi u qq amt ts cl,
          resp = AuctionResponse.BidPlaced aid bi u qq amt ts cl) →
        a.total_supply - a.sold ≠ 0 ∧
        a2.sold = a.sold + min q (a.total_supply - a.sold)) ∧
      (a.total_supply - a.sold = 0 →
        resp = AuctionResponse.Ok ∧ a2.sold = a.sold)) := by
  have hinv : state_inv st :=
    run_ops_preserves_inv chain_id app_id ops initial_state st
      state_inv_initial hwf hrun
  refine ⟨?_, ?_, ?_⟩
  · intro id a hga
    exact (hinv id a hga).2.1
  · intro inv st2 ev calls resp h id a a2 hga hga2
    obtain ⟨h1, _, h3⟩ := execute_operation_sold_step chain_id app_id st inv
      st2 ev calls resp hinv h id a a2 hga hga2
    exact ⟨h1, h3 (hinv id a hga).2.1⟩
  · intro caller now pf aid q st2 ev calls resp a a2 h hga hga2
    have h2 : handle_place_bid st chain_id app_id caller now aid q pf =
        some (st2, ev, calls, resp) := h
    obtain ⟨_, _, a0, a02, hga0, hga02, hsup, hcases⟩ :=
      handle_place_bid_effect _ _ _ _ _ _ _ _ _ _ _ _ h2
    rw [hga0] at hga
    obtain rfl := Option.some.inj hga
    rw [hga02] at hga2
    obtain rfl := Option.some.inj hga2
    obtain ⟨_, hss, hsm⟩ := hinv _ _ hga0
    constructor
    · rintro ⟨bi, u, qq, amt, ts, cl, rfl⟩
      rcases hcases with ⟨hok, _⟩ | ⟨hr, hsold, _⟩
      · exact absurd hok (by simp)
      · refine ⟨by simpa [Amount.satSub] using hr, ?_⟩
        rw [hsold]
        unfold Amount.satAdd Amount.satSub
        omega
    · intro hzero
      rcases hcases with ⟨hok, hsold⟩ | ⟨hr, _, _⟩
      · exact ⟨hok, hsold⟩
      · exact absurd hzero (by simpa [Amount.satSub] using hr)

def c1_params : AuctionParams :=
  { item_name := "c1", image := "", total_supply := 5, max_bid_amount := 100
    start_price := 10, floor_price := 1, price_decay_interval := 60
    price_decay_amount := 1, start_time := 0, end_time := 1000, creator := 1
    payment_token_app := 7, auction_token_app := 8 }

def c1_ops : List OpInvocation :=
  [{ caller := 1, now := 0, payment_fails := none,
     op := AuctionOperation.CreateAuction c1_params },
   { caller := 2, now := 0, payment_fails := none,
     op := AuctionOperation.Buy 0 3 }]

def c1_state : AuctionState :=
  (run_ops 0 99 initial_state c1_ops).getD initial_state

theorem C1_sold_invariant_witness :
    (∀ inv ∈ c1_ops, inv.wfb = true) ∧
    run_ops 0 99 initial_state c1_ops = some c1_state ∧
    ((∀ id a, alGet c1_state.auctions id = some a →
        a.sold ≤ a.total_supply) ∧
     (∀ inv st2 ev calls resp,
       execute_operation 0 99 c1_state inv = some (st2, ev, calls, resp) →
       ∀ id a a2, alGet c1_state.auctions id = some a →
         alGet st2.auctions id = some a2 →
         a.sold ≤ a2.sold ∧ a2.sold ≤ a2.total_supply) ∧
     (∀ caller now pf aid q st2 ev calls resp a a2,
       execute_operation 0 99 c1_state
         { caller := caller, now := now, payment_fails := pf,
           op := AuctionOperation.Buy aid q } =
         some (st2, ev, calls, resp) →
       alGet c1_state.auctions aid = some a →
       alGet st2.auctions aid = some a2 →
       ((∃ bi u qq amt ts cl,
           resp = AuctionResponse.BidPlaced aid bi u qq amt ts cl) →
         a.total_supply - a.sold ≠ 0 ∧
         a2.sold = a.sold + min q (a.total_supply - a.sold)) ∧
       (a.total_supply - a.sold = 0 →
         resp = AuctionResponse.Ok ∧ a2.sold = a.sold))) :=
  ⟨by decide, by decide,
    C1_sold_invariant 0 99 c1_ops c1_state (by decide) (by decide)⟩
